import Mathlib

/-!
Shallow embedding of `staramr/blast/BlastHandler.py` (the BLAST job scheduler
of staramr).

Modelling choices:
* Python `dict`s are association lists `List (String × α)` with unique keys,
  Python insertion-order semantics (assignment to a fresh key appends at the
  end, assignment to an existing key updates in place, `del` removes it).
* The file system is the set of existing paths, as a `List String`; the only
  file-system effects the scheduler itself performs synchronously are creating
  symlinks and creating its working directory, so those are the only updates.
  Output files are written asynchronously by the external processes and are
  not part of the synchronous state.
* The `ThreadPoolExecutor` is not modelled as a temporal object: a submitted
  future is represented directly by its eventual outcome
  (`Except PyErr Unit`), which is determined by the environment `Env` mapping
  each external invocation to its result (its exit status for `makeblastdb`,
  its stderr output for `blastn`).
* Python exceptions are `PyErr`; a method that can raise returns its result
  together with the state as mutated up to the point of the raise, which is
  Python's in-place mutation semantics.
-/

/-- Characters after the last slash of a character list (helper for
`os.path.basename`). -/
def lastComp (l : List Char) : List Char :=
  l.foldl (fun acc c => if c = '/' then [] else acc ++ [c]) []

/-- `os.path.basename`: the part of the path after the last `/`. -/
def basename (p : String) : String :=
  String.mk (lastComp p.data)

/-- Whether a string starts with a slash. -/
def startsWithSlash (s : String) : Bool :=
  match s.data with
  | [] => false
  | c :: _ => c = '/'

/-- Whether a string ends with a slash. -/
def endsWithSlash (s : String) : Bool :=
  match s.data.getLast? with
  | some c => c = '/'
  | none => false

/-- `os.path.join` on POSIX for two components: an absolute second component
wins; otherwise a separator is inserted unless the first component is empty or
already ends with one. -/
def os_join (a b : String) : String :=
  if startsWithSlash b then b
  else if a = "" then b
  else if endsWithSlash a then a ++ b
  else a ++ "/" ++ b

namespace AList0

/-- Lookup in an association list (Python `d[k]` / `k in d`). -/
def lookup (k : String) : List (String × α) → Option α
  | [] => none
  | (k', v) :: rest => if k' = k then some v else lookup k rest

/-- Python `d[k] = v`: update in place if the key exists, else append. -/
def insertA (k : String) (v : α) : List (String × α) → List (String × α)
  | [] => [(k, v)]
  | (k', v') :: rest => if k' = k then (k, v) :: rest else (k', v') :: insertA k v rest

/-- Python `del d[k]`. -/
def eraseA (k : String) : List (String × α) → List (String × α)
  | [] => []
  | (k', v') :: rest => if k' = k then rest else (k', v') :: eraseA k rest

/-- The keys, in dictionary (insertion) order. -/
def keys (m : List (String × α)) : List String := m.map Prod.fst

/-- `if k not in d: d[k] = dflt` (the mutation performed by
`_get_blast_map` / `_get_future_blasts_from_map`). -/
def ensure (k : String) (dflt : α) (m : List (String × α)) : List (String × α) :=
  if (lookup k m).isSome then m else m ++ [(k, dflt)]

end AList0

open AList0

/-- `subprocess.CalledProcessError`, raised by `subprocess.run(..., check=True)`
on a non-zero exit. -/
structure CalledProcessError where
  returncode : Int
  cmd : List String
deriving DecidableEq

/-- The Python exceptions the scheduler can raise. -/
inductive PyErr where
  /-- A plain `Exception(msg)`. -/
  | exception (msg : String)
  /-- `KeyError` from a failed `dict` lookup. -/
  | keyError (key : String)
  /-- `FileExistsError` from `os.symlink` when the destination exists. -/
  | fileExistsError (dest : String)
  /-- `AttributeError` from calling a method on `None`. -/
  | attributeError
  /-- `staramr.exceptions.BlastProcessError(msg, e)` wrapping a process error. -/
  | blastProcessError (msg : String) (cause : CalledProcessError)
deriving DecidableEq

/-- The interface of `AbstractBlastDatabase` as `BlastHandler` uses it:
`get_name()`, `get_database_names()`, and `get_path(database_name)`. -/
structure BlastDatabase where
  name : String
  databaseNames : List String
  getPath : String → String

/-- The outcomes of the external processes: the `makeblastdb` result for each
input path (`none` = exit 0) and the stderr text `blastn` produces for each
(query, db, out) triple (`""` = success). -/
structure Env where
  mkdb : String → Option CalledProcessError
  blastStderr : String → String → String → String

/-- The mutable state of a `BlastHandler` instance. Group result maps are
`group name → input file name → sub-database name → output path`; future maps
hold each submitted job's eventual outcome in submission order. -/
structure BlastHandler where
  threads : Nat
  output_directory : String
  input_genomes_tmp_dir : String
  blast_database_objects_map : List (String × Option BlastDatabase)
  pointfinder_configured : Bool
  blast_map : List (String × List (String × List (String × String)))
  future_blasts_map : List (String × List (Except PyErr Unit))

namespace BlastHandler

/-- `BlastHandler._launch_blast(query, db, output)`: run `blastn`; raise when
its stderr is non-empty. The future submitted for an alignment job carries
this eventual outcome. -/
def launch_result (env : Env) (query db output : String) : Except PyErr Unit :=
  let stderr := env.blastStderr query db output
  if stderr = "" then .ok ()
  else .error (.exception ("error with [blastn -query ...], stderr=" ++ stderr))

/-- The output path computed in `_schedule_blast`:
`os.path.join(output_directory, file_name + "." + database_name + "." + group_name + ".blast.tsv")`. -/
def blast_out_path (output_directory file_name database_name group_name : String) : String :=
  os_join output_directory
    (file_name ++ "." ++ database_name ++ "." ++ group_name ++ ".blast.tsv")

/-- `self._get_blast_map(g).setdefault(file_name, {})[database_name] = blast_out`. -/
def updBlastMap (bm : List (String × List (String × List (String × String))))
    (g file_name database_name blast_out : String) :
    List (String × List (String × List (String × String))) :=
  let gm := (lookup g bm).getD []
  let fm := (lookup file_name gm).getD []
  insertA g (insertA file_name (insertA database_name blast_out fm) gm) bm

/-- `self._get_future_blasts_from_map(g).append(fut)`. -/
def updFutMap (fm : List (String × List (Except PyErr Unit))) (g : String)
    (fut : Except PyErr Unit) : List (String × List (Except PyErr Unit)) :=
  insertA g ((lookup g fm).getD [] ++ [fut]) fm

/-- One iteration of the `for database_name in database_names` loop of
`_schedule_blast`: check for an output-path collision, register the path in
the group's result map, submit the alignment job. -/
def scheduleOne (env : Env) (fs : List String) (h : BlastHandler)
    (file : String) (db : BlastDatabase) (database_name : String) :
    BlastHandler × Except PyErr Unit :=
  let database := db.getPath database_name
  let file_name := basename file
  let blast_out := blast_out_path h.output_directory file_name database_name db.name
  if fs.contains blast_out then
    (h, .error (.exception ("Error, blast_out [%s] already exists, " ++ blast_out)))
  else
    let fut := launch_result env database file blast_out
    ({ h with
        blast_map := updBlastMap h.blast_map db.name file_name database_name blast_out,
        future_blasts_map := updFutMap h.future_blasts_map db.name fut },
     .ok ())

/-- The `for database_name in database_names` loop of `_schedule_blast`. -/
def scheduleList (env : Env) (fs : List String) (h : BlastHandler)
    (file : String) (db : BlastDatabase) :
    List String → BlastHandler × Except PyErr Unit
  | [] => (h, .ok ())
  | d :: rest =>
    match scheduleOne env fs h file db d with
    | (h', .ok _) => scheduleList env fs h' file db rest
    | (h', .error e) => (h', .error e)

/-- `BlastHandler._schedule_blast(file, blast_database)`. -/
def schedule_blast (env : Env) (fs : List String) (h : BlastHandler)
    (file : String) (db : BlastDatabase) : BlastHandler × Except PyErr Unit :=
  scheduleList env fs h file db db.databaseNames

/-- The `for name in self._blast_database_objects_map` loop of `run_blasts`
for one input file; a `None` database object would fail with
`AttributeError` at `get_database_names()`. -/
def scheduleGroups (env : Env) (fs : List String) (h : BlastHandler)
    (file : String) :
    List (String × Option BlastDatabase) → BlastHandler × Except PyErr Unit
  | [] => (h, .ok ())
  | (_, none) :: _ => (h, .error .attributeError)
  | (_, some db) :: rest =>
    match schedule_blast env fs h file db with
    | (h', .ok _) => scheduleGroups env fs h' file rest
    | (h', .error e) => (h', .error e)

/-- The outer `for file in db_files` loop of `run_blasts`. -/
def scheduleFiles (env : Env) (fs : List String) (h : BlastHandler) :
    List String → BlastHandler × Except PyErr Unit
  | [] => (h, .ok ())
  | file :: rest =>
    match scheduleGroups env fs h file h.blast_database_objects_map with
    | (h', .ok _) => scheduleFiles env fs h' rest
    | (h', .error e) => (h', .error e)

/-- The symlink-creation loop of `_make_db_from_input_files`: link each input
into the working directory (`os.symlink` raises when the destination already
exists) and collect the destinations, in input order. -/
def symlinkLoop (db_dir : String) (fs : List String) (acc : List String) :
    List String → List String × Except PyErr (List String)
  | [] => (fs, .ok acc)
  | file :: rest =>
    let destination := os_join db_dir (basename file)
    if fs.contains destination then
      (fs, .error (.fileExistsError destination))
    else
      symlinkLoop db_dir (destination :: fs) (acc ++ [destination]) rest

/-- Draining the `makeblastdb` futures: the first non-zero exit, in submission
order, if any. -/
def firstMkdbErr (env : Env) : List String → Option CalledProcessError
  | [] => none
  | f :: rest =>
    match env.mkdb f with
    | some e => some e
    | none => firstMkdbErr env rest

/-- `BlastHandler._make_db_from_input_files(db_dir, files)`: symlink the
inputs, submit one `makeblastdb` per input, block on all of them, and wrap
the first `CalledProcessError` in a `BlastProcessError`. -/
def make_db_from_input_files (env : Env) (db_dir : String) (fs : List String)
    (files : List String) : List String × Except PyErr (List String) :=
  match symlinkLoop db_dir fs [] files with
  | (fs', .error e) => (fs', .error e)
  | (fs', .ok db_files) =>
    match firstMkdbErr env db_files with
    | some e => (fs', .error (.blastProcessError "Error running makeblastdb" e))
    | none => (fs', .ok db_files)

/-- `BlastHandler.run_blasts(files)`: build the per-input databases, then
schedule one alignment job per (input, group, sub-database). Returns the
handler and file system as mutated up to a raise, with the outcome. -/
def run_blasts (env : Env) (h : BlastHandler) (fs : List String)
    (files : List String) : BlastHandler × List String × Except PyErr Unit :=
  match make_db_from_input_files env h.input_genomes_tmp_dir fs files with
  | (fs', .error e) => (h, fs', .error e)
  | (fs', .ok db_files) =>
    match scheduleFiles env fs' h db_files with
    | (h', r) => (h', fs', r)

/-- `BlastHandler.reset()`: fresh executor, empty maps, create the working
directory when missing. -/
def reset (h : BlastHandler) (fs : List String) : BlastHandler × List String :=
  let h' := { h with blast_map := [], future_blasts_map := [] }
  if fs.contains h.input_genomes_tmp_dir then (h', fs)
  else (h', h.input_genomes_tmp_dir :: fs)

/-- `BlastHandler.__init__(blast_database_objects_map, threads, output_directory)`.
The handler stores the caller's map itself (`self._blast_database_objects_map =
blast_database_objects_map` aliases, it does not copy), so the map in the
returned state is the caller's map as mutated by construction. -/
def init (blast_database_objects_map : List (String × Option BlastDatabase))
    (threads : Option Nat) (output_directory : Option String)
    (fs : List String) : Except PyErr (BlastHandler × List String) :=
  match threads with
  | none => .error (.exception "threads is None")
  | some t =>
    match output_directory with
    | none => .error (.exception "output_directory is None")
    | some od =>
      match lookup "pointfinder" blast_database_objects_map with
      | none => .error (.keyError "pointfinder")
      | some v =>
        let (configured, m) :=
          match v with
          | none => (false, eraseA "pointfinder" blast_database_objects_map)
          | some _ => (true, blast_database_objects_map)
        let h0 : BlastHandler :=
          { threads := t, output_directory := od,
            input_genomes_tmp_dir := os_join od "input-genomes",
            blast_database_objects_map := m,
            pointfinder_configured := configured,
            blast_map := [], future_blasts_map := [] }
        .ok (reset h0 fs)

/-- `BlastHandler.is_pointfinder_configured()`. -/
def is_pointfinder_configured (h : BlastHandler) : Bool :=
  h.pointfinder_configured

/-- The `for future_blast in ...: future_blast.result()` drain: the first
failure in submission order, if any. -/
def drain : List (Except PyErr Unit) → Except PyErr Unit
  | [] => .ok ()
  | .ok _ :: rest => drain rest
  | .error e :: _ => .error e

/-- `BlastHandler.get_resfinder_outputs()`: drain resfinder futures (raising
the first failure), then return the resfinder result map. The lazy-map
accessors insert an empty entry when the key is missing. -/
def get_resfinder_outputs (h : BlastHandler) :
    BlastHandler × Except PyErr (List (String × List (String × String))) :=
  let futs := (lookup "resfinder" h.future_blasts_map).getD []
  let h1 := { h with future_blasts_map := ensure "resfinder" [] h.future_blasts_map }
  match drain futs with
  | .error e => (h1, .error e)
  | .ok _ =>
    let m := (lookup "resfinder" h1.blast_map).getD []
    ({ h1 with blast_map := ensure "resfinder" [] h1.blast_map }, .ok m)

/-- `BlastHandler.get_pointfinder_outputs()`: as for resfinder, but raising
when pointfinder is not configured. -/
def get_pointfinder_outputs (h : BlastHandler) :
    BlastHandler × Except PyErr (List (String × List (String × String))) :=
  if h.is_pointfinder_configured then
    let futs := (lookup "pointfinder" h.future_blasts_map).getD []
    let h1 := { h with future_blasts_map := ensure "pointfinder" [] h.future_blasts_map }
    match drain futs with
    | .error e => (h1, .error e)
    | .ok _ =>
      let m := (lookup "pointfinder" h1.blast_map).getD []
      ({ h1 with blast_map := ensure "pointfinder" [] h1.blast_map }, .ok m)
  else
    (h, .error (.exception "Error, pointfinder has not been configured"))

end BlastHandler

/-! ### Association-list lemmas -/

namespace AList0

theorem lookup_insertA_self (k : String) (v : α) (m : List (String × α)) :
    lookup k (insertA k v m) = some v := by
  induction m with
  | nil => simp [insertA, lookup]
  | cons p rest ih =>
    obtain ⟨k', v'⟩ := p
    by_cases hk : k' = k
    · subst hk; simp [insertA, lookup]
    · simp [insertA, lookup, hk, ih]

theorem lookup_insertA_ne {k k' : String} (hne : k' ≠ k) (v : α) (m : List (String × α)) :
    lookup k' (insertA k v m) = lookup k' m := by
  have hne' : k ≠ k' := Ne.symm hne
  induction m with
  | nil => simp [insertA, lookup, hne']
  | cons p rest ih =>
    obtain ⟨k'', v''⟩ := p
    by_cases hk : k'' = k
    · subst hk
      simp [insertA, lookup, hne']
    · simp [insertA, lookup, hk, ih]

theorem isSome_lookup_iff_mem_keys (k : String) (m : List (String × α)) :
    (lookup k m).isSome ↔ k ∈ keys m := by
  induction m with
  | nil => simp [lookup, keys]
  | cons p rest ih =>
    obtain ⟨k', v'⟩ := p
    by_cases hk : k' = k
    · subst hk; simp [lookup, keys]
    · have hk' : k ≠ k' := Ne.symm hk
      simp [lookup, keys, hk, hk', ih]

theorem lookup_eraseA_self {k : String} {m : List (String × α)}
    (hnd : (keys m).Nodup) : lookup k (eraseA k m) = none := by
  induction m with
  | nil => simp [eraseA, lookup]
  | cons p rest ih =>
    obtain ⟨k', v'⟩ := p
    simp only [keys, List.map_cons, List.nodup_cons] at hnd
    by_cases hk : k' = k
    · simp only [eraseA, if_pos hk]
      rcases h : lookup k rest with _ | v
      · rfl
      · exfalso
        have hk2 := (isSome_lookup_iff_mem_keys k rest).mp (by simp [h])
        rw [hk] at hnd
        exact hnd.1 hk2
    · simpa [eraseA, lookup, hk] using ih hnd.2

theorem lookup_eraseA_ne {k k' : String} (hne : k' ≠ k) (m : List (String × α)) :
    lookup k' (eraseA k m) = lookup k' m := by
  induction m with
  | nil => simp [eraseA, lookup]
  | cons p rest ih =>
    obtain ⟨k'', v''⟩ := p
    by_cases hk : k'' = k
    · subst hk
      simp [eraseA, lookup, Ne.symm hne]
    · simp [eraseA, lookup, hk, ih]

theorem ensure_of_isSome {k : String} {m : List (String × α)}
    (h : (lookup k m).isSome) (dflt : α) : ensure k dflt m = m := by
  simp [ensure, h]

theorem lookup_append_of_isNone {k : String} {m : List (String × α)}
    (h : lookup k m = none) (m' : List (String × α)) :
    lookup k (m ++ m') = lookup k m' := by
  induction m with
  | nil => simp
  | cons p rest ih =>
    obtain ⟨k', v'⟩ := p
    by_cases hk : k' = k
    · subst hk; simp [lookup] at h
    · simp only [lookup, hk, if_false] at h
      simpa [lookup, hk] using ih h

theorem lookup_ensure_self (k : String) (dflt : α) (m : List (String × α)) :
    (lookup k (ensure k dflt m)).isSome := by
  unfold ensure
  rcases h : lookup k m with _ | v
  · simp only [h, Option.isSome_none, Bool.false_eq_true, if_false]
    rw [lookup_append_of_isNone h]
    simp [lookup]
  · simp [h]

theorem getD_lookup_ensure_nil (k : String)
    (m : List (String × List β)) :
    (lookup k (ensure k [] m)).getD [] = (lookup k m).getD [] := by
  unfold ensure
  rcases h : lookup k m with _ | v
  · simp only [h, Option.isSome_none, Bool.false_eq_true, if_false]
    rw [lookup_append_of_isNone h]
    simp [lookup]
  · simp [h]

end AList0

/-! ### Path lemmas -/

theorem lastComp_no_slash (l : List Char) : ∀ c ∈ lastComp l, c ≠ '/' := by
  suffices h : ∀ (acc : List Char), (∀ c ∈ acc, c ≠ '/') →
      ∀ c ∈ l.foldl (fun acc c => if c = '/' then [] else acc ++ [c]) acc, c ≠ '/' by
    exact h [] (by simp)
  induction l with
  | nil => intro acc hacc; simpa using hacc
  | cons x rest ih =>
    intro acc hacc
    simp only [List.foldl_cons]
    by_cases hx : x = '/'
    · simp only [hx, if_pos rfl]
      exact ih [] (by simp)
    · simp only [if_neg hx]
      refine ih (acc ++ [x]) ?_
      intro c hc
      rcases List.mem_append.mp hc with h1 | h1
      · exact hacc c h1
      · simp only [List.mem_singleton] at h1; subst h1; exact hx

theorem foldl_no_slash (l : List Char) (hl : ∀ c ∈ l, c ≠ '/') (acc : List Char) :
    l.foldl (fun acc c => if c = '/' then [] else acc ++ [c]) acc = acc ++ l := by
  induction l generalizing acc with
  | nil => simp
  | cons x rest ih =>
    have hx : x ≠ '/' := hl x (by simp)
    simp only [List.foldl_cons, if_neg hx]
    rw [ih (fun c hc => hl c (by simp [hc]))]
    simp

theorem lastComp_append_no_slash (l₁ l₂ : List Char) (h : ∀ c ∈ l₂, c ≠ '/') :
    lastComp (l₁ ++ l₂) = lastComp l₁ ++ l₂ := by
  unfold lastComp
  rw [List.foldl_append]
  exact foldl_no_slash l₂ h _

theorem lastComp_append_slash (l : List Char) : lastComp (l ++ ['/']) = [] := by
  unfold lastComp
  rw [List.foldl_append]
  simp

theorem lastComp_of_no_slash (l : List Char) (h : ∀ c ∈ l, c ≠ '/') :
    lastComp l = l := by
  have h0 := lastComp_append_no_slash [] l h
  simpa [lastComp] using h0

/-- The basename of any path contains no slash. -/
theorem basename_no_slash (p : String) : ∀ c ∈ (basename p).data, c ≠ '/' := by
  simpa [basename] using lastComp_no_slash p.data

theorem endsWithSlash_data {a : String} (h : endsWithSlash a = true) :
    ∃ l, a.data = l ++ ['/'] := by
  unfold endsWithSlash at h
  rcases hg : a.data.getLast? with _ | c
  · rw [hg] at h; simp at h
  · rw [hg] at h
    have hc : c = '/' := by simpa using h
    have hne : a.data ≠ [] := by
      intro hnil; rw [hnil] at hg; simp at hg
    refine ⟨a.data.dropLast, ?_⟩
    have hgl : a.data.getLast hne = c := by
      have := List.getLast?_eq_getLast a.data hne
      rw [hg] at this
      exact (Option.some.injEq _ _).mp this.symm
    conv_lhs => rw [← List.dropLast_append_getLast hne]
    rw [hgl, hc]

/-- A slash-free component survives `os.path.join`: its basename is itself. -/
theorem basename_os_join (a b : String) (hb : ∀ c ∈ b.data, c ≠ '/') :
    basename (os_join a b) = b := by
  have hbase : ∀ s : String, (basename s).data = lastComp s.data := fun s => rfl
  have hmk : basename b = b := by
    apply String.ext
    rw [hbase]
    exact lastComp_of_no_slash b.data hb
  unfold os_join
  by_cases h1 : startsWithSlash b = true
  · exfalso
    unfold startsWithSlash at h1
    rcases hd : b.data with _ | ⟨c, rest⟩
    · rw [hd] at h1; simp at h1
    · rw [hd] at h1
      have hc : c = '/' := by simpa using h1
      exact hb c (by rw [hd]; simp) hc
  · rw [if_neg h1]
    by_cases h2 : a = ""
    · rw [if_pos h2]
      exact hmk
    · rw [if_neg h2]
      by_cases h3 : endsWithSlash a = true
      · rw [if_pos h3]
        apply String.ext
        rw [hbase, String.data_append]
        obtain ⟨l, hl⟩ := endsWithSlash_data h3
        rw [hl, List.append_assoc, ← List.append_assoc,
          lastComp_append_no_slash _ _ hb, lastComp_append_slash]
        simp
      · rw [if_neg h3]
        apply String.ext
        rw [hbase, String.data_append, String.data_append]
        have hslash : ("/" : String).data = ['/'] := rfl
        rw [hslash, lastComp_append_no_slash _ _ hb, lastComp_append_slash]
        simp

/-! ### `List.contains` and membership -/

theorem mem_of_contains_true {fs : List String} {p : String}
    (hc : fs.contains p = true) : p ∈ fs := by
  rw [List.contains_eq_any_beq] at hc
  obtain ⟨x, hx, hbeq⟩ := List.any_eq_true.mp hc
  rw [eq_of_beq hbeq]
  exact hx

theorem contains_true_of_mem {fs : List String} {p : String}
    (hm : p ∈ fs) : fs.contains p = true := by
  rw [List.contains_eq_any_beq]
  exact List.any_eq_true.mpr ⟨p, hm, by simp⟩

theorem not_mem_of_contains_false {fs : List String} {p : String}
    (hc : fs.contains p = false) : p ∉ fs := by
  intro hm
  rw [contains_true_of_mem hm] at hc
  cases hc

theorem contains_false_of_not_mem {fs : List String} {p : String}
    (hm : p ∉ fs) : fs.contains p = false := by
  rcases hc : fs.contains p with _ | _
  · rfl
  · exact absurd (mem_of_contains_true hc) hm

/-! ### Configuration fields are untouched by scheduling -/

namespace BlastHandler

/-- The constructor-time fields of a handler: everything except the result
and future maps. -/
def sameConfig (h' h : BlastHandler) : Prop :=
  h'.threads = h.threads ∧ h'.output_directory = h.output_directory ∧
  h'.input_genomes_tmp_dir = h.input_genomes_tmp_dir ∧
  h'.blast_database_objects_map = h.blast_database_objects_map ∧
  h'.pointfinder_configured = h.pointfinder_configured

theorem sameConfig_refl (h : BlastHandler) : sameConfig h h :=
  ⟨rfl, rfl, rfl, rfl, rfl⟩

theorem sameConfig_trans {h₂ h₁ h₀ : BlastHandler}
    (hab : sameConfig h₂ h₁) (hbc : sameConfig h₁ h₀) : sameConfig h₂ h₀ := by
  obtain ⟨a1, a2, a3, a4, a5⟩ := hab
  obtain ⟨b1, b2, b3, b4, b5⟩ := hbc
  exact ⟨a1.trans b1, a2.trans b2, a3.trans b3, a4.trans b4, a5.trans b5⟩

theorem scheduleOne_sameConfig (env : Env) (fs : List String) (h : BlastHandler)
    (file : String) (db : BlastDatabase) (d : String) :
    sameConfig (scheduleOne env fs h file db d).1 h := by
  unfold scheduleOne
  by_cases hc : fs.contains (blast_out_path h.output_directory (basename file) d db.name)
  · simp only [hc, if_pos rfl]
    exact sameConfig_refl h
  · simp only [hc, Bool.false_eq_true, if_false]
    exact ⟨rfl, rfl, rfl, rfl, rfl⟩

theorem scheduleList_sameConfig (env : Env) (fs : List String) (file : String)
    (db : BlastDatabase) (ds : List String) :
    ∀ h : BlastHandler, sameConfig (scheduleList env fs h file db ds).1 h := by
  induction ds with
  | nil => intro h; exact sameConfig_refl h
  | cons d rest ih =>
    intro h
    rcases hs : scheduleOne env fs h file db d with ⟨h₁, r⟩
    have hcfg : sameConfig h₁ h := by
      have := scheduleOne_sameConfig env fs h file db d
      rw [hs] at this
      exact this
    rcases r with e | u
    · simpa [scheduleList, hs] using hcfg
    · have := ih h₁
      simpa [scheduleList, hs] using sameConfig_trans this hcfg

theorem scheduleGroups_sameConfig (env : Env) (fs : List String) (file : String)
    (groups : List (String × Option BlastDatabase)) :
    ∀ h : BlastHandler, sameConfig (scheduleGroups env fs h file groups).1 h := by
  induction groups with
  | nil => intro h; exact sameConfig_refl h
  | cons p rest ih =>
    intro h
    obtain ⟨g, v⟩ := p
    rcases v with _ | db
    · exact sameConfig_refl h
    · rcases hs : schedule_blast env fs h file db with ⟨h₁, r⟩
      have hcfg : sameConfig h₁ h := by
        have := scheduleList_sameConfig env fs file db db.databaseNames h
        rw [show scheduleList env fs h file db db.databaseNames = schedule_blast env fs h file db from rfl, hs] at this
        exact this
      rcases r with e | u
      · simpa [scheduleGroups, hs] using hcfg
      · have := ih h₁
        simpa [scheduleGroups, hs] using sameConfig_trans this hcfg

theorem scheduleFiles_sameConfig (env : Env) (fs : List String)
    (files : List String) :
    ∀ h : BlastHandler, sameConfig (scheduleFiles env fs h files).1 h := by
  induction files with
  | nil => intro h; exact sameConfig_refl h
  | cons file rest ih =>
    intro h
    rcases hs : scheduleGroups env fs h file h.blast_database_objects_map with ⟨h₁, r⟩
    have hcfg : sameConfig h₁ h := by
      have := scheduleGroups_sameConfig env fs file h.blast_database_objects_map h
      rw [hs] at this
      exact this
    rcases r with e | u
    · simpa [scheduleFiles, hs] using hcfg
    · have := ih h₁
      simpa [scheduleFiles, hs] using sameConfig_trans this hcfg

theorem run_blasts_sameConfig (env : Env) (h : BlastHandler) (fs : List String)
    (files : List String) : sameConfig (run_blasts env h fs files).1 h := by
  unfold run_blasts
  rcases hm : make_db_from_input_files env h.input_genomes_tmp_dir fs files with ⟨fs', r⟩
  rcases r with e | db_files
  · exact sameConfig_refl h
  · rcases hsf : scheduleFiles env fs' h db_files with ⟨h', r'⟩
    have := scheduleFiles_sameConfig env fs' db_files h
    rw [hsf] at this
    simpa [hsf] using this

end BlastHandler

/-! ### Reset, init and drain helper lemmas -/

namespace BlastHandler

theorem reset_fst (h : BlastHandler) (fs : List String) :
    (reset h fs).1 = { h with blast_map := [], future_blasts_map := [] } := by
  unfold reset
  split <;> rfl

theorem reset_snd (h : BlastHandler) (fs : List String) :
    (reset h fs).2 =
      if fs.contains h.input_genomes_tmp_dir then fs
      else h.input_genomes_tmp_dir :: fs := by
  unfold reset
  by_cases hc : fs.contains h.input_genomes_tmp_dir
  · rw [if_pos hc, if_pos hc]
  · rw [if_neg hc, if_neg hc]

theorem init_ok_inv {dbMap : List (String × Option BlastDatabase)} {t : Nat}
    {od : String} {fs : List String} {h : BlastHandler} {fs' : List String}
    (hinit : init dbMap (some t) (some od) fs = .ok (h, fs')) :
    h.blast_map = [] ∧ h.future_blasts_map = [] ∧ h.threads = t ∧
    h.output_directory = od ∧
    h.input_genomes_tmp_dir = os_join od "input-genomes" := by
  unfold init at hinit
  rcases hl : lookup "pointfinder" dbMap with _ | v
  · rw [hl] at hinit; cases hinit
  · rw [hl] at hinit
    rcases v with _ | db
    all_goals
      simp only [Except.ok.injEq] at hinit
      have hfst := congrArg Prod.fst hinit
      rw [reset_fst] at hfst
      refine ⟨?_, ?_, ?_, ?_, ?_⟩ <;>
        first
          | exact (congrArg BlastHandler.blast_map hfst).symm.trans rfl
          | exact (congrArg BlastHandler.future_blasts_map hfst).symm.trans rfl
          | exact (congrArg BlastHandler.threads hfst).symm.trans rfl
          | exact (congrArg BlastHandler.output_directory hfst).symm.trans rfl
          | exact (congrArg BlastHandler.input_genomes_tmp_dir hfst).symm.trans rfl

theorem drain_append_error (pre post : List (Except PyErr Unit)) (e : PyErr)
    (hpre : ∀ x ∈ pre, x = .ok ()) :
    drain (pre ++ .error e :: post) = .error e := by
  induction pre with
  | nil => simp [drain]
  | cons x rest ih =>
    have hx : x = .ok () := hpre x (by simp)
    subst hx
    simpa [drain] using ih (fun y hy => hpre y (by simp [hy]))

theorem drain_all_ok (l : List (Except PyErr Unit)) (h : ∀ x ∈ l, x = .ok ()) :
    drain l = .ok () := by
  induction l with
  | nil => rfl
  | cons x rest ih =>
    have hx : x = .ok () := h x (by simp)
    subst hx
    simpa [drain] using ih (fun y hy => h y (by simp [hy]))

end BlastHandler

/-! ### Concrete sample data used by witnesses and counterexamples -/

/-- A concrete ResFinder-like database object. -/
def sampleResfinderDb : BlastDatabase :=
  { name := "resfinder", databaseNames := ["d1", "d2"], getPath := fun d => d }

/-- A concrete PointFinder-like database object. -/
def samplePointfinderDb : BlastDatabase :=
  { name := "pointfinder", databaseNames := ["p1"], getPath := fun d => d }

/-- An environment in which every external process succeeds. -/
def sampleEnvOk : Env := { mkdb := fun _ => none, blastStderr := fun _ _ _ => "" }

/-- A database map with both groups configured. -/
def sampleDbMap : List (String × Option BlastDatabase) :=
  [("resfinder", some sampleResfinderDb), ("pointfinder", some samplePointfinderDb)]

/-- A database map whose pointfinder entry is `None`. -/
def sampleDbMapNullPf : List (String × Option BlastDatabase) :=
  [("resfinder", some sampleResfinderDb), ("pointfinder", none)]

/-- A freshly constructed handler over `sampleDbMap`. -/
def sampleHandler : BlastHandler :=
  { threads := 2, output_directory := "out",
    input_genomes_tmp_dir := "out/input-genomes",
    blast_database_objects_map := sampleDbMap,
    pointfinder_configured := true,
    blast_map := [], future_blasts_map := [] }

open BlastHandler
/-! ### Equation lemmas for `init` -/

namespace BlastHandler

theorem init_null_pf_eq (t : Nat) (od : String) (fs : List String)
    {dbMap : List (String × Option BlastDatabase)}
    (hpf : lookup "pointfinder" dbMap = some none) :
    init dbMap (some t) (some od) fs =
      .ok (reset
        { threads := t, output_directory := od,
          input_genomes_tmp_dir := os_join od "input-genomes",
          blast_database_objects_map := eraseA "pointfinder" dbMap,
          pointfinder_configured := false,
          blast_map := [], future_blasts_map := [] }
        fs) := by
  unfold init
  rw [hpf]

theorem init_some_pf_eq (t : Nat) (od : String) (fs : List String)
    {dbMap : List (String × Option BlastDatabase)} {db : BlastDatabase}
    (hpf : lookup "pointfinder" dbMap = some (some db)) :
    init dbMap (some t) (some od) fs =
      .ok (reset
        { threads := t, output_directory := od,
          input_genomes_tmp_dir := os_join od "input-genomes",
          blast_database_objects_map := dbMap,
          pointfinder_configured := true,
          blast_map := [], future_blasts_map := [] }
        fs) := by
  unfold init
  rw [hpf]

theorem init_missing_pf_eq {dbMap : List (String × Option BlastDatabase)}
    {t : Nat} {od : String} {fs : List String}
    (hpf : lookup "pointfinder" dbMap = none) :
    init dbMap (some t) (some od) fs = .error (.keyError "pointfinder") := by
  unfold init
  rw [hpf]

end BlastHandler

open BlastHandler

/-! ### Claim C8 -/

/-- **C8**: `reset()` is safe to call any number of times: every call leaves
the handle map and result map empty, and directory creation is idempotent —
an existing working subdirectory is reused (the file system is unchanged),
a missing one is created, and no error is raised (`reset` is total); a
second `reset` is a no-op on both the handler and the file system. -/
theorem claim_C8_reset_idempotent (h : BlastHandler) (fs : List String) :
    (reset h fs).1.blast_map = [] ∧
    (reset h fs).1.future_blasts_map = [] ∧
    (fs.contains h.input_genomes_tmp_dir = true → (reset h fs).2 = fs) ∧
    (fs.contains h.input_genomes_tmp_dir = false →
      (reset h fs).2 = h.input_genomes_tmp_dir :: fs) ∧
    reset (reset h fs).1 (reset h fs).2 = reset h fs := by
  refine ⟨by rw [reset_fst], by rw [reset_fst], ?_, ?_, ?_⟩
  · intro hc; rw [reset_snd, if_pos hc]
  · intro hc; rw [reset_snd, hc]; simp
  · rcases hr : reset h fs with ⟨h', fs'⟩
    show reset h' fs' = (h', fs')
    have h1 : h' = { h with blast_map := [], future_blasts_map := [] } := by
      have hf := reset_fst h fs
      rw [hr] at hf
      exact hf
    have hsnd : fs' = if fs.contains h.input_genomes_tmp_dir then fs
        else h.input_genomes_tmp_dir :: fs := by
      have hs := reset_snd h fs
      rw [hr] at hs
      exact hs
    have h2 : fs'.contains h'.input_genomes_tmp_dir = true := by
      subst h1
      show fs'.contains h.input_genomes_tmp_dir = true
      by_cases hc : fs.contains h.input_genomes_tmp_dir
      · rw [if_pos hc] at hsnd
        rw [hsnd]
        exact hc
      · rw [if_neg hc] at hsnd
        rw [hsnd]
        simp
    unfold reset
    rw [if_pos h2]
    subst h1
    rfl

/-- Witness for C8 at a concrete handler and an empty file system. -/
theorem claim_C8_witness :
    (reset sampleHandler []).1.blast_map = [] ∧
    (reset sampleHandler []).2 = "out/input-genomes" :: [] ∧
    reset (reset sampleHandler []).1 (reset sampleHandler []).2 =
      reset sampleHandler [] := by
  refine ⟨(claim_C8_reset_idempotent sampleHandler []).1, ?_,
    (claim_C8_reset_idempotent sampleHandler []).2.2.2.2⟩
  exact (claim_C8_reset_idempotent sampleHandler []).2.2.2.1 (by decide)

/-! ### Claim C10 -/

/-- **C10**: the constructor aliases (does not copy) the caller's database
map; with a null `pointfinder` entry the key is deleted from that very map,
so after construction the map the handler holds — the caller's — has no
`pointfinder` key; and a map with no `pointfinder` key at all makes the
constructor itself fail with a `KeyError`. -/
theorem claim_C10_init_mutates_caller_map
    (dbMap : List (String × Option BlastDatabase)) (t : Nat) (od : String)
    (fs : List String) (hnd : (keys dbMap).Nodup) :
    (lookup "pointfinder" dbMap = some none →
      (∃ p, init dbMap (some t) (some od) fs = .ok p) ∧
      ∀ h fs', init dbMap (some t) (some od) fs = .ok (h, fs') →
        h.blast_database_objects_map = eraseA "pointfinder" dbMap ∧
        lookup "pointfinder" h.blast_database_objects_map = none) ∧
    (lookup "pointfinder" dbMap = none →
      init dbMap (some t) (some od) fs = .error (.keyError "pointfinder")) := by
  constructor
  · intro hpf
    constructor
    · exact ⟨_, init_null_pf_eq t od fs hpf⟩
    · intro h fs' hinit
      rw [init_null_pf_eq t od fs hpf] at hinit
      simp only [Except.ok.injEq] at hinit
      have hfst := congrArg Prod.fst hinit
      rw [reset_fst] at hfst
      have hm : h.blast_database_objects_map = eraseA "pointfinder" dbMap :=
        (congrArg BlastHandler.blast_database_objects_map hfst).symm
      refine ⟨hm, ?_⟩
      rw [hm]
      exact lookup_eraseA_self hnd
  · intro hpf
    exact init_missing_pf_eq hpf

/-- Witness for C10: a null pointfinder entry is deleted from the caller's
map, and a missing key raises `KeyError`. -/
theorem claim_C10_witness :
    ((∃ p, init sampleDbMapNullPf (some 2) (some "out") [] = .ok p) ∧
      ∀ h fs', init sampleDbMapNullPf (some 2) (some "out") [] = .ok (h, fs') →
        h.blast_database_objects_map = eraseA "pointfinder" sampleDbMapNullPf ∧
        lookup "pointfinder" h.blast_database_objects_map = none) ∧
    init [("resfinder", some sampleResfinderDb)] (some 2) (some "out") [] =
      .error (.keyError "pointfinder") := by
  constructor
  · exact (claim_C10_init_mutates_caller_map sampleDbMapNullPf 2 "out" []
      (by decide)).1 rfl
  · exact (claim_C10_init_mutates_caller_map
      [("resfinder", some sampleResfinderDb)] 2 "out" [] (by decide)).2 rfl

/-! ### Claim C6 -/

/-- The first component of `get_resfinder_outputs` keeps the configuration
flag. -/
theorem get_resfinder_outputs_fst_flag (h : BlastHandler) :
    (get_resfinder_outputs h).1.pointfinder_configured =
      h.pointfinder_configured := by
  unfold get_resfinder_outputs
  dsimp only
  split <;> rfl

/-- **C6**: a missing (null) pointfinder entry is treated as "not configured"
and removed from the working set at construction: `is_pointfinder_configured`
returns false, every later call to `get_pointfinder_outputs` on a
not-configured handler raises the not-configured error rather than returning
an empty map, and no operation (`run_blasts`, `reset`,
`get_resfinder_outputs`) ever sets the flag back. -/
theorem claim_C6_null_pointfinder_not_configured
    (dbMap : List (String × Option BlastDatabase)) (t : Nat) (od : String)
    (fs : List String) (h : BlastHandler) (fs' : List String)
    (hnd : (keys dbMap).Nodup)
    (hpf : lookup "pointfinder" dbMap = some none)
    (hinit : init dbMap (some t) (some od) fs = .ok (h, fs')) :
    h.is_pointfinder_configured = false ∧
    lookup "pointfinder" h.blast_database_objects_map = none ∧
    (∀ h' : BlastHandler, h'.pointfinder_configured = false →
      get_pointfinder_outputs h' =
        (h', .error (.exception "Error, pointfinder has not been configured"))) ∧
    (∀ env fs₂ files,
      (run_blasts env h fs₂ files).1.pointfinder_configured = false) ∧
    (∀ fs₂, (reset h fs₂).1.pointfinder_configured = false) ∧
    (get_resfinder_outputs h).1.pointfinder_configured = false := by
  rw [init_null_pf_eq t od fs hpf] at hinit
  simp only [Except.ok.injEq] at hinit
  have hfst := congrArg Prod.fst hinit
  rw [reset_fst] at hfst
  have hflag : h.pointfinder_configured = false :=
    (congrArg BlastHandler.pointfinder_configured hfst).symm
  have hmap : h.blast_database_objects_map = eraseA "pointfinder" dbMap :=
    (congrArg BlastHandler.blast_database_objects_map hfst).symm
  have hget : ∀ h' : BlastHandler, h'.pointfinder_configured = false →
      get_pointfinder_outputs h' =
        (h', .error (.exception "Error, pointfinder has not been configured")) := by
    intro h' hflag'
    unfold get_pointfinder_outputs is_pointfinder_configured
    rw [hflag']
    rfl
  refine ⟨hflag, ?_, hget, ?_, ?_, ?_⟩
  · rw [hmap]
    exact lookup_eraseA_self hnd
  · intro env fs₂ files
    have hs := (run_blasts_sameConfig env h fs₂ files).2.2.2.2
    rw [hs, hflag]
  · intro fs₂
    rw [reset_fst]
    exact hflag
  · rw [get_resfinder_outputs_fst_flag]
    exact hflag

/-- Witness for C6 at a concrete construction with a null pointfinder. -/
theorem claim_C6_witness :
    ∃ h fs', init sampleDbMapNullPf (some 2) (some "out") [] = .ok (h, fs') ∧
      (h.is_pointfinder_configured = false ∧
       lookup "pointfinder" h.blast_database_objects_map = none ∧
       (∀ h' : BlastHandler, h'.pointfinder_configured = false →
         get_pointfinder_outputs h' =
           (h', .error (.exception "Error, pointfinder has not been configured"))) ∧
       (∀ env fs₂ files,
         (run_blasts env h fs₂ files).1.pointfinder_configured = false) ∧
       (∀ fs₂, (reset h fs₂).1.pointfinder_configured = false) ∧
       (get_resfinder_outputs h).1.pointfinder_configured = false) := by
  refine ⟨_, _, rfl, claim_C6_null_pointfinder_not_configured
    sampleDbMapNullPf 2 "out" [] _ _ (by decide) rfl rfl⟩

/-! ### Claim C7 -/

/-- **C7**: on a freshly constructed or freshly reset handler (empty handle
and result maps), draining the mandatory group's results before any
`run_blasts` returns an empty map rather than raising; and both `init` and
`reset` do produce empty maps. -/
theorem claim_C7_get_results_before_run_empty (h : BlastHandler)
    (hbm : h.blast_map = []) (hfm : h.future_blasts_map = []) :
    (get_resfinder_outputs h).2 = .ok [] ∧
    (h.pointfinder_configured = true → (get_pointfinder_outputs h).2 = .ok []) ∧
    (∀ dbMap t od fs h₀ fs', init dbMap (some t) (some od) fs = .ok (h₀, fs') →
      h₀.blast_map = [] ∧ h₀.future_blasts_map = []) ∧
    (∀ (h' : BlastHandler) fs₂,
      (reset h' fs₂).1.blast_map = [] ∧ (reset h' fs₂).1.future_blasts_map = []) := by
  refine ⟨?_, ?_, ?_, ?_⟩
  · unfold get_resfinder_outputs
    rw [hfm, hbm]
    rfl
  · intro hflag
    unfold get_pointfinder_outputs is_pointfinder_configured
    rw [hflag, hfm, hbm]
    rfl
  · intro dbMap t od fs h₀ fs' hinit
    have hi := init_ok_inv hinit
    exact ⟨hi.1, hi.2.1⟩
  · intro h' fs₂
    rw [reset_fst]
    exact ⟨rfl, rfl⟩

/-- Witness for C7 at a concrete fresh handler. -/
theorem claim_C7_witness :
    (get_resfinder_outputs sampleHandler).2 = .ok [] ∧
    (sampleHandler.pointfinder_configured = true →
      (get_pointfinder_outputs sampleHandler).2 = .ok []) ∧
    (∀ dbMap t od fs h₀ fs', init dbMap (some t) (some od) fs = .ok (h₀, fs') →
      h₀.blast_map = [] ∧ h₀.future_blasts_map = []) ∧
    (∀ (h' : BlastHandler) fs₂,
      (reset h' fs₂).1.blast_map = [] ∧ (reset h' fs₂).1.future_blasts_map = []) :=
  claim_C7_get_results_before_run_empty sampleHandler rfl rfl

/-! ### Claim C5 -/

/-- **C5**: draining a group's results raises the first failure in
handle-list (submission) order — the handles after the raising one do not
affect the outcome (the trailing list is universally quantified) — and when
no handle failed, the drain returns the group's result map. Stated for both
`get_resfinder_outputs` and `get_pointfinder_outputs`. -/
theorem claim_C5_drain_first_failure (h : BlastHandler) :
    (∀ futs pre e post, lookup "resfinder" h.future_blasts_map = some futs →
      futs = pre ++ .error e :: post → (∀ x ∈ pre, x = .ok ()) →
      (get_resfinder_outputs h).2 = .error e) ∧
    (∀ futs, lookup "resfinder" h.future_blasts_map = some futs →
      (∀ x ∈ futs, x = .ok ()) →
      (get_resfinder_outputs h).2 =
        .ok ((lookup "resfinder" h.blast_map).getD [])) ∧
    (h.pointfinder_configured = true →
      (∀ futs pre e post, lookup "pointfinder" h.future_blasts_map = some futs →
        futs = pre ++ .error e :: post → (∀ x ∈ pre, x = .ok ()) →
        (get_pointfinder_outputs h).2 = .error e) ∧
      (∀ futs, lookup "pointfinder" h.future_blasts_map = some futs →
        (∀ x ∈ futs, x = .ok ()) →
        (get_pointfinder_outputs h).2 =
          .ok ((lookup "pointfinder" h.blast_map).getD []))) := by
  refine ⟨?_, ?_, ?_⟩
  · intro futs pre e post hlk hfuts hpre
    unfold get_resfinder_outputs
    dsimp only
    rw [hlk, Option.getD_some, hfuts, drain_append_error pre post e hpre]
  · intro futs hlk hok
    unfold get_resfinder_outputs
    dsimp only
    rw [hlk, Option.getD_some, drain_all_ok futs hok]
  · intro hflag
    constructor
    · intro futs pre e post hlk hfuts hpre
      unfold get_pointfinder_outputs is_pointfinder_configured
      rw [hflag]
      dsimp only
      rw [hlk, Option.getD_some, hfuts, drain_append_error pre post e hpre]
      rfl
    · intro futs hlk hok
      unfold get_pointfinder_outputs is_pointfinder_configured
      rw [hflag]
      dsimp only
      rw [hlk, Option.getD_some, drain_all_ok futs hok]
      rfl

/-- A concrete alignment failure. -/
def sampleErr : PyErr :=
  .exception "error with [blastn -query ...], stderr=boom"

/-- A handler whose resfinder group has one failed handle between two
successful ones, and whose pointfinder group fully succeeded. -/
def sampleHandlerFut : BlastHandler :=
  { sampleHandler with
      blast_map :=
        [("resfinder", [("f1.fa", [("d1", "out/f1.fa.d1.resfinder.blast.tsv")])]),
         ("pointfinder", [("f1.fa", [("p1", "out/f1.fa.p1.pointfinder.blast.tsv")])])],
      future_blasts_map :=
        [("resfinder", [.ok (), .error sampleErr, .ok ()]),
         ("pointfinder", [.ok ()])] }

/-- Witness for C5: the failed resfinder drain raises the middle failure;
the fully successful pointfinder drain returns its result map. -/
theorem claim_C5_witness :
    (get_resfinder_outputs sampleHandlerFut).2 = .error sampleErr ∧
    (get_pointfinder_outputs sampleHandlerFut).2 =
      .ok ((lookup "pointfinder" sampleHandlerFut.blast_map).getD []) := by
  constructor
  · exact (claim_C5_drain_first_failure sampleHandlerFut).1
      [.ok (), .error sampleErr, .ok ()] [.ok ()] sampleErr [.ok ()]
      rfl rfl (by simp)
  · exact ((claim_C5_drain_first_failure sampleHandlerFut).2.2 rfl).2
      [.ok ()] rfl (by simp)

/-! ### Claim C4 -/

/-- **C4**: when some `makeblastdb` invocation exits non-zero, `run_blasts`
raises a `BlastProcessError` wrapping the first such failure (in submission
order), and the handler is returned exactly as it was — in particular no
alignment job was submitted to the pool (its future maps are untouched). -/
theorem claim_C4_makeblastdb_failure_aborts (env : Env) (h : BlastHandler)
    (fs files fs' db_files : List String) (e : CalledProcessError)
    (hsym : symlinkLoop h.input_genomes_tmp_dir fs [] files = (fs', .ok db_files))
    (hfail : firstMkdbErr env db_files = some e) :
    run_blasts env h fs files =
      (h, fs', .error (.blastProcessError "Error running makeblastdb" e)) := by
  unfold run_blasts make_db_from_input_files
  rw [hsym]
  dsimp only
  rw [hfail]

/-- The non-zero exit of a concrete failing `makeblastdb`. -/
def sampleMkdbErr : CalledProcessError :=
  { returncode := 2,
    cmd := ["makeblastdb", "-in", "out/input-genomes/f1.fa", "-dbtype",
            "nucl", "-parse_seqids"] }

/-- An environment in which indexing `out/input-genomes/f1.fa` fails. -/
def sampleEnvMkdbFail : Env :=
  { mkdb := fun p => if p = "out/input-genomes/f1.fa" then some sampleMkdbErr else none,
    blastStderr := fun _ _ _ => "" }

/-- Witness for C4 at a concrete failing index build. -/
theorem claim_C4_witness :
    run_blasts sampleEnvMkdbFail sampleHandler ["out/input-genomes"] ["f1.fa"] =
      (sampleHandler, ["out/input-genomes/f1.fa", "out/input-genomes"],
       .error (.blastProcessError "Error running makeblastdb" sampleMkdbErr)) :=
  claim_C4_makeblastdb_failure_aborts sampleEnvMkdbFail sampleHandler
    ["out/input-genomes"] ["f1.fa"] _ _ sampleMkdbErr rfl rfl

/-! ### Claim C3 -/

namespace BlastHandler

theorem scheduleOne_contains_eq (env : Env) (fs : List String) (h : BlastHandler)
    (file : String) (db : BlastDatabase) (d : String)
    (hc : fs.contains (blast_out_path h.output_directory (basename file) d db.name) = true) :
    scheduleOne env fs h file db d =
      (h, .error (.exception ("Error, blast_out [%s] already exists, " ++
        blast_out_path h.output_directory (basename file) d db.name))) := by
  unfold scheduleOne
  dsimp only
  rw [if_pos hc]

theorem scheduleOne_not_contains_eq (env : Env) (fs : List String)
    (h : BlastHandler) (file : String) (db : BlastDatabase) (d : String)
    (hc : fs.contains (blast_out_path h.output_directory (basename file) d db.name) = false) :
    scheduleOne env fs h file db d =
      ({ h with
          blast_map := updBlastMap h.blast_map db.name (basename file) d
            (blast_out_path h.output_directory (basename file) d db.name),
          future_blasts_map := updFutMap h.future_blasts_map db.name
            (launch_result env (db.getPath d) file
              (blast_out_path h.output_directory (basename file) d db.name)) },
       .ok ()) := by
  unfold scheduleOne
  dsimp only
  rw [if_neg (by rw [hc]; simp)]

theorem updFutMap_len (fm : List (String × List (Except PyErr Unit)))
    (g : String) (fut : Except PyErr Unit) :
    ((lookup g (updFutMap fm g fut)).getD []).length =
      ((lookup g fm).getD []).length + 1 := by
  unfold updFutMap
  rw [lookup_insertA_self, Option.getD_some]
  simp

theorem updBlastMap_chain_ne (bm : List (String × List (String × List (String × String))))
    (g f d c p : String) (hne : c ≠ d) :
    lookup c ((lookup f ((lookup g (updBlastMap bm g f d p)).getD [])).getD []) =
    lookup c ((lookup f ((lookup g bm).getD [])).getD []) := by
  unfold updBlastMap
  rw [lookup_insertA_self, Option.getD_some, lookup_insertA_self,
    Option.getD_some, lookup_insertA_ne hne]

theorem scheduleList_collision (env : Env) (fs : List String) (file : String)
    (db : BlastDatabase) (c : String) (post : List String) :
    ∀ (pre : List String) (h : BlastHandler),
      (∀ d ∈ pre, fs.contains
        (blast_out_path h.output_directory (basename file) d db.name) = false) →
      fs.contains (blast_out_path h.output_directory (basename file) c db.name) = true →
      ∃ h', scheduleList env fs h file db (pre ++ c :: post) =
          (h', .error (.exception ("Error, blast_out [%s] already exists, " ++
            blast_out_path h.output_directory (basename file) c db.name))) ∧
        h'.output_directory = h.output_directory ∧
        ((lookup db.name h'.future_blasts_map).getD []).length =
          ((lookup db.name h.future_blasts_map).getD []).length + pre.length ∧
        lookup c ((lookup (basename file) ((lookup db.name h'.blast_map).getD [])).getD []) =
          lookup c ((lookup (basename file) ((lookup db.name h.blast_map).getD [])).getD []) := by
  intro pre
  induction pre with
  | nil =>
    intro h hpre hc
    refine ⟨h, ?_, rfl, by simp, rfl⟩
    rw [List.nil_append, scheduleList, scheduleOne_contains_eq env fs h file db c hc]
  | cons d pre' ih =>
    intro h hpre hc
    have hd : fs.contains
        (blast_out_path h.output_directory (basename file) d db.name) = false :=
      hpre d (by simp)
    have hne : c ≠ d := by
      intro hcd
      rw [hcd, hd] at hc
      cases hc
    have h1eq := scheduleOne_not_contains_eq env fs h file db d hd
    obtain ⟨h', heq, hod, hlen, hlook⟩ := ih
      { h with
          blast_map := updBlastMap h.blast_map db.name (basename file) d
            (blast_out_path h.output_directory (basename file) d db.name),
          future_blasts_map := updFutMap h.future_blasts_map db.name
            (launch_result env (db.getPath d) file
              (blast_out_path h.output_directory (basename file) d db.name)) }
      (fun d' hd' => hpre d' (List.mem_cons_of_mem _ hd'))
      hc
    refine ⟨h', ?_, hod, ?_, ?_⟩
    · rw [List.cons_append, scheduleList, h1eq]
      exact heq
    · rw [hlen]
      have hl := updFutMap_len h.future_blasts_map db.name
        (launch_result env (db.getPath d) file
          (blast_out_path h.output_directory (basename file) d db.name))
      rw [show (lookup db.name
          ({ h with
              blast_map := updBlastMap h.blast_map db.name (basename file) d
                (blast_out_path h.output_directory (basename file) d db.name),
              future_blasts_map := updFutMap h.future_blasts_map db.name
                (launch_result env (db.getPath d) file
                  (blast_out_path h.output_directory (basename file) d db.name)) }
            : BlastHandler).future_blasts_map).getD [] =
          (lookup db.name (updFutMap h.future_blasts_map db.name
            (launch_result env (db.getPath d) file
              (blast_out_path h.output_directory (basename file) d db.name)))).getD []
        from rfl, hl]
      simp [List.length_cons]
      omega
    · rw [hlook]
      exact updBlastMap_chain_ne h.blast_map db.name (basename file) d c
        (blast_out_path h.output_directory (basename file) d db.name) hne

end BlastHandler

/-- **C3**: if the computed output path of some sub-database job already
exists at scheduling time (and no earlier sub-database of that group
collides), `_schedule_blast` raises the collision exception synchronously:
exactly the jobs before the colliding one were submitted (the group's handle
list grew by `pre.length`), the colliding path's entry is not registered in
the result map (that lookup is unchanged), the error aborts the rest of the
group loop for the file (any continuation `rest` is never reached), and an
erroring group loop aborts the remaining files of `run_blasts`'s scheduling
loop. -/
theorem claim_C3_collision_aborts_scheduling (env : Env) (fs : List String)
    (h : BlastHandler) (file : String) (db : BlastDatabase)
    (pre : List String) (c : String) (post : List String)
    (hdb : db.databaseNames = pre ++ c :: post)
    (hpre : ∀ d ∈ pre, fs.contains
      (blast_out_path h.output_directory (basename file) d db.name) = false)
    (hc : fs.contains
      (blast_out_path h.output_directory (basename file) c db.name) = true) :
    (∃ h', schedule_blast env fs h file db =
        (h', .error (.exception ("Error, blast_out [%s] already exists, " ++
          blast_out_path h.output_directory (basename file) c db.name))) ∧
      ((lookup db.name h'.future_blasts_map).getD []).length =
        ((lookup db.name h.future_blasts_map).getD []).length + pre.length ∧
      lookup c ((lookup (basename file) ((lookup db.name h'.blast_map).getD [])).getD []) =
        lookup c ((lookup (basename file) ((lookup db.name h.blast_map).getD [])).getD []) ∧
      (∀ g rest, scheduleGroups env fs h file ((g, some db) :: rest) =
        (h', .error (.exception ("Error, blast_out [%s] already exists, " ++
          blast_out_path h.output_directory (basename file) c db.name))))) ∧
    (∀ (h₀ h₁ : BlastHandler) (e : PyErr) (filesRest : List String),
      scheduleGroups env fs h₀ file h₀.blast_database_objects_map = (h₁, .error e) →
      scheduleFiles env fs h₀ (file :: filesRest) = (h₁, .error e)) := by
  constructor
  · obtain ⟨h', heq, hod, hlen, hlook⟩ :=
      scheduleList_collision env fs file db c post pre h hpre hc
    have heq' : schedule_blast env fs h file db =
        (h', .error (.exception ("Error, blast_out [%s] already exists, " ++
          blast_out_path h.output_directory (basename file) c db.name))) := by
      unfold schedule_blast
      rw [hdb]
      exact heq
    refine ⟨h', heq', hlen, hlook, ?_⟩
    intro g rest
    unfold scheduleGroups
    rw [heq']
  · intro h₀ h₁ e filesRest hgrp
    unfold scheduleFiles
    rw [hgrp]

/-- Witness for C3: with `out/f1.fa.d2.resfinder.blast.tsv` already on disk,
scheduling `f1.fa` against the resfinder group raises at `d2` after
submitting only the `d1` job. -/
theorem claim_C3_witness :
    (∃ h', schedule_blast sampleEnvOk ["out/f1.fa.d2.resfinder.blast.tsv"]
        sampleHandler "f1.fa" sampleResfinderDb =
        (h', .error (.exception ("Error, blast_out [%s] already exists, " ++
          blast_out_path sampleHandler.output_directory (basename "f1.fa") "d2"
            sampleResfinderDb.name))) ∧
      ((lookup sampleResfinderDb.name h'.future_blasts_map).getD []).length =
        ((lookup sampleResfinderDb.name sampleHandler.future_blasts_map).getD []).length +
          (["d1"] : List String).length ∧
      lookup "d2" ((lookup (basename "f1.fa")
          ((lookup sampleResfinderDb.name h'.blast_map).getD [])).getD []) =
        lookup "d2" ((lookup (basename "f1.fa")
          ((lookup sampleResfinderDb.name sampleHandler.blast_map).getD [])).getD []) ∧
      (∀ g rest, scheduleGroups sampleEnvOk ["out/f1.fa.d2.resfinder.blast.tsv"]
          sampleHandler "f1.fa" ((g, some sampleResfinderDb) :: rest) =
        (h', .error (.exception ("Error, blast_out [%s] already exists, " ++
          blast_out_path sampleHandler.output_directory (basename "f1.fa") "d2"
            sampleResfinderDb.name))))) ∧
    (∀ (h₀ h₁ : BlastHandler) (e : PyErr) (filesRest : List String),
      scheduleGroups sampleEnvOk ["out/f1.fa.d2.resfinder.blast.tsv"] h₀ "f1.fa"
          h₀.blast_database_objects_map = (h₁, .error e) →
      scheduleFiles sampleEnvOk ["out/f1.fa.d2.resfinder.blast.tsv"] h₀
          ("f1.fa" :: filesRest) = (h₁, .error e)) :=
  claim_C3_collision_aborts_scheduling sampleEnvOk
    ["out/f1.fa.d2.resfinder.blast.tsv"] sampleHandler "f1.fa"
    sampleResfinderDb ["d1"] "d2" [] rfl
    (by intro d hd; simp only [List.mem_singleton] at hd; subst hd; rfl) rfl

/-! ### Claim C2 -/

namespace BlastHandler

/-- Every path registered in a blast map has the canonical form the scheduler
computes: `os.path.join(od, file_name + "." + database_name + "." +
group_name + ".blast.tsv")`, keyed by exactly those three names. -/
def canonicalPaths (od : String)
    (bm : List (String × List (String × List (String × String)))) : Prop :=
  ∀ g gm fname fm d p, lookup g bm = some gm → lookup fname gm = some fm →
    lookup d fm = some p → p = blast_out_path od fname d g

theorem canonicalPaths_nil (od : String) : canonicalPaths od [] := by
  intro g gm fname fm d p hg
  cases hg

theorem canonicalPaths_upd {od : String}
    {bm : List (String × List (String × List (String × String)))}
    (hcanon : canonicalPaths od bm) (g f d : String) :
    canonicalPaths od (updBlastMap bm g f d (blast_out_path od f d g)) := by
  intro g' gm' f' fm' d' p' hg hf hd
  unfold updBlastMap at hg
  by_cases hgg : g' = g
  · subst hgg
    rw [lookup_insertA_self] at hg
    simp only [Option.some.injEq] at hg
    subst hg
    by_cases hff : f' = f
    · subst hff
      rw [lookup_insertA_self] at hf
      simp only [Option.some.injEq] at hf
      subst hf
      by_cases hdd : d' = d
      · subst hdd
        rw [lookup_insertA_self] at hd
        simp only [Option.some.injEq] at hd
        subst hd
        rfl
      · rw [lookup_insertA_ne hdd] at hd
        rcases hgm : lookup g' bm with _ | gm₀
        · rw [hgm] at hd
          simp [lookup] at hd
        · rw [hgm] at hd
          simp only [Option.getD_some] at hd
          rcases hfm : lookup f' gm₀ with _ | fm₀
          · rw [hfm] at hd
            simp [lookup] at hd
          · rw [hfm] at hd
            simp only [Option.getD_some] at hd
            exact hcanon g' gm₀ f' fm₀ d' p' hgm hfm hd
    · rw [lookup_insertA_ne hff] at hf
      rcases hgm : lookup g' bm with _ | gm₀
      · rw [hgm] at hf
        simp [lookup] at hf
      · rw [hgm] at hf
        simp only [Option.getD_some] at hf
        exact hcanon g' gm₀ f' fm' d' p' hgm hf hd
  · rw [lookup_insertA_ne hgg] at hg
    exact hcanon g' gm' f' fm' d' p' hg hf hd

theorem scheduleOne_canonical (env : Env) (fs : List String) (h : BlastHandler)
    (file : String) (db : BlastDatabase) (d : String)
    (hcanon : canonicalPaths h.output_directory h.blast_map) :
    canonicalPaths h.output_directory (scheduleOne env fs h file db d).1.blast_map := by
  unfold scheduleOne
  dsimp only
  by_cases hc : fs.contains (blast_out_path h.output_directory (basename file) d db.name) = true
  · rw [if_pos hc]
    exact hcanon
  · rw [if_neg hc]
    exact canonicalPaths_upd hcanon db.name (basename file) d

theorem scheduleList_canonical (env : Env) (fs : List String) (file : String)
    (db : BlastDatabase) (ds : List String) :
    ∀ h : BlastHandler, canonicalPaths h.output_directory h.blast_map →
      canonicalPaths h.output_directory (scheduleList env fs h file db ds).1.blast_map := by
  induction ds with
  | nil => intro h hcanon; exact hcanon
  | cons d rest ih =>
    intro h hcanon
    rcases hs : scheduleOne env fs h file db d with ⟨h₁, r⟩
    have hcfg : h₁.output_directory = h.output_directory := by
      have hsc := scheduleOne_sameConfig env fs h file db d
      rw [hs] at hsc
      exact hsc.2.1
    have hcanon₁ : canonicalPaths h₁.output_directory h₁.blast_map := by
      have hone := scheduleOne_canonical env fs h file db d hcanon
      rw [hs] at hone
      rw [hcfg]
      exact hone
    rcases r with e | u
    · simp only [scheduleList, hs]
      rw [hcfg] at hcanon₁
      exact hcanon₁
    · simp only [scheduleList, hs]
      have := ih h₁ hcanon₁
      rw [hcfg] at this
      exact this

theorem scheduleGroups_canonical (env : Env) (fs : List String) (file : String)
    (groups : List (String × Option BlastDatabase)) :
    ∀ h : BlastHandler, canonicalPaths h.output_directory h.blast_map →
      canonicalPaths h.output_directory (scheduleGroups env fs h file groups).1.blast_map := by
  induction groups with
  | nil => intro h hcanon; exact hcanon
  | cons p rest ih =>
    intro h hcanon
    obtain ⟨g, v⟩ := p
    rcases v with _ | db
    · exact hcanon
    · rcases hs : schedule_blast env fs h file db with ⟨h₁, r⟩
      have hcfg : h₁.output_directory = h.output_directory := by
        have hsc := scheduleList_sameConfig env fs file db db.databaseNames h
        rw [show scheduleList env fs h file db db.databaseNames =
          schedule_blast env fs h file db from rfl, hs] at hsc
        exact hsc.2.1
      have hcanon₁ : canonicalPaths h₁.output_directory h₁.blast_map := by
        have hl := scheduleList_canonical env fs file db db.databaseNames h hcanon
        rw [show scheduleList env fs h file db db.databaseNames =
          schedule_blast env fs h file db from rfl, hs] at hl
        rw [hcfg]
        exact hl
      rcases r with e | u
      · simp only [scheduleGroups, hs]
        rw [hcfg] at hcanon₁
        exact hcanon₁
      · simp only [scheduleGroups, hs]
        have := ih h₁ hcanon₁
        rw [hcfg] at this
        exact this

theorem scheduleFiles_canonical (env : Env) (fs : List String)
    (files : List String) :
    ∀ h : BlastHandler, canonicalPaths h.output_directory h.blast_map →
      canonicalPaths h.output_directory (scheduleFiles env fs h files).1.blast_map := by
  induction files with
  | nil => intro h hcanon; exact hcanon
  | cons file rest ih =>
    intro h hcanon
    rcases hs : scheduleGroups env fs h file h.blast_database_objects_map with ⟨h₁, r⟩
    have hcfg : h₁.output_directory = h.output_directory := by
      have hsc := scheduleGroups_sameConfig env fs file h.blast_database_objects_map h
      rw [hs] at hsc
      exact hsc.2.1
    have hcanon₁ : canonicalPaths h₁.output_directory h₁.blast_map := by
      have hg := scheduleGroups_canonical env fs file h.blast_database_objects_map h hcanon
      rw [hs] at hg
      rw [hcfg]
      exact hg
    rcases r with e | u
    · simp only [scheduleFiles, hs]
      rw [hcfg] at hcanon₁
      exact hcanon₁
    · simp only [scheduleFiles, hs]
      have := ih h₁ hcanon₁
      rw [hcfg] at this
      exact this

end BlastHandler

/-- **C2 (amended)**: every output artifact path the scheduler registers is
the deterministic function
`os.path.join(output_dir, file_name + "." + database_name + "." + group_name + ".blast.tsv")`
of the output directory and the three names under which it is keyed — the
extension is `.blast.tsv`, not `.result`. The invariant holds from a fresh
construction through any `run_blasts` call (even one that raises), and
`blast_out_path` itself is a pure function, so identically-named inputs give
identically-named files across instances. -/
theorem claim_C2_output_path_formula (env : Env) (h : BlastHandler)
    (fs files : List String)
    (hcanon : canonicalPaths h.output_directory h.blast_map) :
    canonicalPaths h.output_directory (run_blasts env h fs files).1.blast_map ∧
    (∀ dbMap t od fs₀ h₀ fs₀', init dbMap (some t) (some od) fs₀ = .ok (h₀, fs₀') →
      canonicalPaths h₀.output_directory h₀.blast_map) := by
  constructor
  · unfold run_blasts
    rcases hm : make_db_from_input_files env h.input_genomes_tmp_dir fs files with ⟨fs', r⟩
    rcases r with e | db_files
    · exact hcanon
    · dsimp only
      rcases hsf : scheduleFiles env fs' h db_files with ⟨h', r'⟩
      have hc := scheduleFiles_canonical env fs' db_files h hcanon
      rw [hsf] at hc
      exact hc
  · intro dbMap t od fs₀ h₀ fs₀' hinit
    have hi := init_ok_inv hinit
    rw [hi.1]
    exact canonicalPaths_nil h₀.output_directory

/-- Witness for C2 (amended) at a concrete fresh handler. -/
theorem claim_C2_witness :
    canonicalPaths sampleHandler.output_directory
      (run_blasts sampleEnvOk sampleHandler ["out/input-genomes"] ["f1.fa"]).1.blast_map ∧
    (∀ dbMap t od fs₀ h₀ fs₀', init dbMap (some t) (some od) fs₀ = .ok (h₀, fs₀') →
      canonicalPaths h₀.output_directory h₀.blast_map) :=
  claim_C2_output_path_formula sampleEnvOk sampleHandler ["out/input-genomes"]
    ["f1.fa"] (canonicalPaths_nil sampleHandler.output_directory)

/-- **C2 counterexample**: on a concrete successful run the registered
artifact path ends in `.blast.tsv`; it is not the
`{output_dir}/{input_file_name}.{sub_database_name}.{group_name}.result`
path the claim states. -/
theorem claim_C2_counterexample :
    ∃ h₁ fs₁, run_blasts sampleEnvOk sampleHandler ["out/input-genomes"] ["f1.fa"] =
        (h₁, fs₁, .ok ()) ∧
      lookup "d1" ((lookup "f1.fa" ((lookup "resfinder" h₁.blast_map).getD [])).getD []) =
        some "out/f1.fa.d1.resfinder.blast.tsv" ∧
      "out/f1.fa.d1.resfinder.blast.tsv" ≠
        os_join "out" ("f1.fa" ++ "." ++ "d1" ++ "." ++ "resfinder" ++ ".result") := by
  refine ⟨_, _, rfl, ?_, ?_⟩
  · rfl
  · decide

/-! ### Claim C1: symlink-phase lemmas -/

namespace BlastHandler

/-- The basename of a symlink destination is the input's basename. -/
theorem basename_dest (dir f : String) :
    basename (os_join dir (basename f)) = basename f :=
  basename_os_join dir (basename f) (basename_no_slash f)

theorem symlinkLoop_ok_dbfiles (dir : String) :
    ∀ (files fs acc : List String) {fs' dbfs : List String},
      symlinkLoop dir fs acc files = (fs', .ok dbfs) →
      dbfs = acc ++ files.map (fun f => os_join dir (basename f)) := by
  intro files
  induction files with
  | nil =>
    intro fs acc fs' dbfs hs
    simp only [symlinkLoop, Prod.mk.injEq, Except.ok.injEq] at hs
    simp [hs.2.symm]
  | cons f rest ih =>
    intro fs acc fs' dbfs hs
    unfold symlinkLoop at hs
    dsimp only at hs
    by_cases hc : fs.contains (os_join dir (basename f)) = true
    · rw [if_pos hc] at hs
      simp at hs
    · rw [if_neg hc] at hs
      have := ih (os_join dir (basename f) :: fs) (acc ++ [os_join dir (basename f)]) hs
      rw [this]
      simp

theorem symlinkLoop_ok_not_mem (dir : String) :
    ∀ (files fs acc : List String) {fs' dbfs : List String},
      symlinkLoop dir fs acc files = (fs', .ok dbfs) →
      ∀ q ∈ fs, q ∉ files.map (fun f => os_join dir (basename f)) := by
  intro files
  induction files with
  | nil => intro fs acc fs' dbfs hs q hq; simp
  | cons f rest ih =>
    intro fs acc fs' dbfs hs q hq
    unfold symlinkLoop at hs
    dsimp only at hs
    by_cases hc : fs.contains (os_join dir (basename f)) = true
    · rw [if_pos hc] at hs
      simp at hs
    · rw [if_neg hc] at hs
      simp only [List.map_cons, List.mem_cons]
      rintro (hq1 | hq1)
      · subst hq1
        exact absurd (contains_true_of_mem hq) hc
      · exact ih (os_join dir (basename f) :: fs) _ hs q (by simp [hq]) hq1

theorem symlinkLoop_ok_nodup (dir : String) :
    ∀ (files fs acc : List String) {fs' dbfs : List String},
      symlinkLoop dir fs acc files = (fs', .ok dbfs) →
      (files.map (fun f => os_join dir (basename f))).Nodup := by
  intro files
  induction files with
  | nil => intro fs acc fs' dbfs hs; simp
  | cons f rest ih =>
    intro fs acc fs' dbfs hs
    unfold symlinkLoop at hs
    dsimp only at hs
    by_cases hc : fs.contains (os_join dir (basename f)) = true
    · rw [if_pos hc] at hs
      simp at hs
    · rw [if_neg hc] at hs
      simp only [List.map_cons, List.nodup_cons]
      constructor
      · exact symlinkLoop_ok_not_mem dir rest _ _ hs
          (os_join dir (basename f)) (by simp)
      · exact ih (os_join dir (basename f) :: fs) _ hs

/-- The input basenames are pairwise distinct whenever the symlink phase
succeeds (a duplicate basename would hit an existing destination). -/
theorem symlinkLoop_ok_basenames_nodup (dir : String)
    (files fs acc : List String) {fs' dbfs : List String}
    (hs : symlinkLoop dir fs acc files = (fs', .ok dbfs)) :
    (files.map basename).Nodup := by
  have hnd := symlinkLoop_ok_nodup dir files fs acc hs
  have hmm : files.map (fun f => os_join dir (basename f)) =
      (files.map basename).map (fun b => os_join dir b) := by
    rw [List.map_map]
    rfl
  rw [hmm] at hnd
  exact hnd.of_map

/-- The destination basenames are the input basenames. -/
theorem dbfiles_basenames (dir : String) (files : List String) :
    (files.map (fun f => os_join dir (basename f))).map basename =
      files.map basename := by
  rw [List.map_map]
  apply List.map_congr_left
  intro f _
  exact basename_dest dir f

end BlastHandler

/-! ### Claim C1: result-map chain lemmas and frames -/

namespace BlastHandler

theorem updBlastMap_group_ne
    {bm : List (String × List (String × List (String × String)))}
    {g g' : String} (hne : g' ≠ g) (f d p : String) :
    lookup g' (updBlastMap bm g f d p) = lookup g' bm := by
  unfold updBlastMap
  rw [lookup_insertA_ne hne]

theorem updBlastMap_file_ne
    {bm : List (String × List (String × List (String × String)))}
    {f f' : String} (hne : f' ≠ f) (g g' d p : String) :
    lookup f' ((lookup g' (updBlastMap bm g f d p)).getD []) =
      lookup f' ((lookup g' bm).getD []) := by
  by_cases hg : g' = g
  · subst hg
    unfold updBlastMap
    rw [lookup_insertA_self, Option.getD_some, lookup_insertA_ne hne]
  · rw [updBlastMap_group_ne hg]

theorem updBlastMap_chain_eq
    (bm : List (String × List (String × List (String × String))))
    (g f d p : String) :
    lookup d ((lookup f ((lookup g (updBlastMap bm g f d p)).getD [])).getD []) =
      some p := by
  unfold updBlastMap
  rw [lookup_insertA_self, Option.getD_some, lookup_insertA_self,
    Option.getD_some, lookup_insertA_self]

theorem updBlastMap_fileEntry_isSome
    (bm : List (String × List (String × List (String × String))))
    (g f d p : String) :
    (lookup f ((lookup g (updBlastMap bm g f d p)).getD [])).isSome := by
  unfold updBlastMap
  rw [lookup_insertA_self, Option.getD_some, lookup_insertA_self]
  rfl

/-- If an inner sub-database lookup succeeds, the file entry exists. -/
theorem fileEntry_isSome_of_inner {gm : List (String × List (String × String))}
    {k d : String}
    (h : (lookup d ((lookup k gm).getD [])).isSome) : (lookup k gm).isSome := by
  rcases hk : lookup k gm with _ | fm
  · rw [hk] at h
    simp [lookup] at h
  · simp

/-- `scheduleList` never touches other groups' result-map entries
(any outcome). -/
theorem scheduleList_frame_group (env : Env) (fs : List String) (file : String)
    (db : BlastDatabase) :
    ∀ (ds : List String) (h : BlastHandler) {g' : String}, g' ≠ db.name →
      lookup g' (scheduleList env fs h file db ds).1.blast_map =
        lookup g' h.blast_map := by
  intro ds
  induction ds with
  | nil => intro h g' hne; rfl
  | cons d rest ih =>
    intro h g' hne
    by_cases hc : fs.contains
        (blast_out_path h.output_directory (basename file) d db.name) = true
    · rw [show scheduleList env fs h file db (d :: rest) =
        match scheduleOne env fs h file db d with
        | (h', .ok _) => scheduleList env fs h' file db rest
        | (h', .error e) => (h', .error e) from rfl]
      rw [scheduleOne_contains_eq env fs h file db d hc]
    · rw [show scheduleList env fs h file db (d :: rest) =
        match scheduleOne env fs h file db d with
        | (h', .ok _) => scheduleList env fs h' file db rest
        | (h', .error e) => (h', .error e) from rfl]
      rw [scheduleOne_not_contains_eq env fs h file db d
        (by rcases hb : fs.contains (blast_out_path h.output_directory (basename file) d db.name) with _ | _
            · rfl
            · exact absurd hb hc)]
      dsimp only
      rw [ih _ hne]
      exact updBlastMap_group_ne hne (basename file) d _

/-- `scheduleList` never touches other files' entries in any group
(any outcome). -/
theorem scheduleList_frame_file (env : Env) (fs : List String) (file : String)
    (db : BlastDatabase) :
    ∀ (ds : List String) (h : BlastHandler) {f' : String},
      f' ≠ basename file → ∀ g',
      lookup f' ((lookup g' (scheduleList env fs h file db ds).1.blast_map).getD []) =
        lookup f' ((lookup g' h.blast_map).getD []) := by
  intro ds
  induction ds with
  | nil => intro h f' hne g'; rfl
  | cons d rest ih =>
    intro h f' hne g'
    by_cases hc : fs.contains
        (blast_out_path h.output_directory (basename file) d db.name) = true
    · rw [show scheduleList env fs h file db (d :: rest) =
        match scheduleOne env fs h file db d with
        | (h', .ok _) => scheduleList env fs h' file db rest
        | (h', .error e) => (h', .error e) from rfl]
      rw [scheduleOne_contains_eq env fs h file db d hc]
    · rw [show scheduleList env fs h file db (d :: rest) =
        match scheduleOne env fs h file db d with
        | (h', .ok _) => scheduleList env fs h' file db rest
        | (h', .error e) => (h', .error e) from rfl]
      rw [scheduleOne_not_contains_eq env fs h file db d
        (by rcases hb : fs.contains (blast_out_path h.output_directory (basename file) d db.name) with _ | _
            · rfl
            · exact absurd hb hc)]
      dsimp only
      rw [ih _ hne g']
      exact updBlastMap_file_ne hne db.name g' d _

end BlastHandler

/-! ### Claim C1: loop equation lemmas and group/file frames -/

namespace BlastHandler

theorem scheduleList_cons (env : Env) (fs : List String) (h : BlastHandler)
    (file : String) (db : BlastDatabase) (d : String) (rest : List String) :
    scheduleList env fs h file db (d :: rest) =
      match scheduleOne env fs h file db d with
      | (h', .ok _) => scheduleList env fs h' file db rest
      | (h', .error e) => (h', .error e) := rfl

theorem scheduleGroups_cons_some (env : Env) (fs : List String)
    (h : BlastHandler) (file g : String) (db : BlastDatabase)
    (rest : List (String × Option BlastDatabase)) :
    scheduleGroups env fs h file ((g, some db) :: rest) =
      match schedule_blast env fs h file db with
      | (h', .ok _) => scheduleGroups env fs h' file rest
      | (h', .error e) => (h', .error e) := rfl

theorem scheduleFiles_cons (env : Env) (fs : List String) (h : BlastHandler)
    (file : String) (rest : List String) :
    scheduleFiles env fs h (file :: rest) =
      match scheduleGroups env fs h file h.blast_database_objects_map with
      | (h', .ok _) => scheduleFiles env fs h' rest
      | (h', .error e) => (h', .error e) := rfl

theorem scheduleGroups_frame_group (env : Env) (fs : List String)
    (file g₀ : String) :
    ∀ (groups : List (String × Option BlastDatabase)) (h : BlastHandler),
      (∀ p ∈ groups, ∀ dbp : BlastDatabase, p.2 = some dbp → dbp.name ≠ g₀) →
      lookup g₀ (scheduleGroups env fs h file groups).1.blast_map =
        lookup g₀ h.blast_map := by
  intro groups
  induction groups with
  | nil => intro h hn; rfl
  | cons p rest ih =>
    intro h hn
    obtain ⟨g, v⟩ := p
    rcases v with _ | db
    · rfl
    · have hname : db.name ≠ g₀ := hn (g, some db) (by simp) db rfl
      rw [scheduleGroups_cons_some]
      rcases hs : schedule_blast env fs h file db with ⟨h₁, r⟩
      have hfr : lookup g₀ h₁.blast_map = lookup g₀ h.blast_map := by
        have hfr0 := scheduleList_frame_group env fs file db
          db.databaseNames h (Ne.symm hname)
        rw [show scheduleList env fs h file db db.databaseNames =
          schedule_blast env fs h file db from rfl, hs] at hfr0
        exact hfr0
      rcases r with e | u
      · exact hfr
      · dsimp only
        rw [ih h₁ (fun p hp dbp hdp => hn p (by simp [hp]) dbp hdp)]
        exact hfr

theorem scheduleGroups_frame_file (env : Env) (fs : List String)
    (file : String) :
    ∀ (groups : List (String × Option BlastDatabase)) (h : BlastHandler)
      {f' : String}, f' ≠ basename file → ∀ g',
      lookup f' ((lookup g' (scheduleGroups env fs h file groups).1.blast_map).getD []) =
        lookup f' ((lookup g' h.blast_map).getD []) := by
  intro groups
  induction groups with
  | nil => intro h f' hne g'; rfl
  | cons p rest ih =>
    intro h f' hne g'
    obtain ⟨g, v⟩ := p
    rcases v with _ | db
    · rfl
    · rw [scheduleGroups_cons_some]
      rcases hs : schedule_blast env fs h file db with ⟨h₁, r⟩
      have hfr : lookup f' ((lookup g' h₁.blast_map).getD []) =
          lookup f' ((lookup g' h.blast_map).getD []) := by
        have hfr0 := scheduleList_frame_file env fs file db
          db.databaseNames h hne g'
        rw [show scheduleList env fs h file db db.databaseNames =
          schedule_blast env fs h file db from rfl, hs] at hfr0
        exact hfr0
      rcases r with e | u
      · exact hfr
      · dsimp only
        rw [ih h₁ hne g']
        exact hfr

theorem scheduleFiles_frame_file (env : Env) (fs : List String) :
    ∀ (dfiles : List String) (h : BlastHandler) {k : String},
      (∀ f ∈ dfiles, basename f ≠ k) → ∀ g',
      lookup k ((lookup g' (scheduleFiles env fs h dfiles).1.blast_map).getD []) =
        lookup k ((lookup g' h.blast_map).getD []) := by
  intro dfiles
  induction dfiles with
  | nil => intro h k hk g'; rfl
  | cons f₀ rest ih =>
    intro h k hk g'
    rw [scheduleFiles_cons]
    rcases hs : scheduleGroups env fs h f₀ h.blast_database_objects_map with ⟨h₁, r⟩
    have hfr : lookup k ((lookup g' h₁.blast_map).getD []) =
        lookup k ((lookup g' h.blast_map).getD []) := by
      have hfr0 := scheduleGroups_frame_file env fs f₀
        h.blast_database_objects_map h (Ne.symm (hk f₀ (by simp))) g'
      rw [hs] at hfr0
      exact hfr0
    rcases r with e | u
    · exact hfr
    · dsimp only
      rw [ih h₁ (fun f hf => hk f (by simp [hf])) g']
      exact hfr

end BlastHandler

/-! ### Claim C1: every submitted future succeeds when every blastn does -/

namespace BlastHandler

/-- Every future recorded in the map completed successfully. -/
def allFutOk (fm : List (String × List (Except PyErr Unit))) : Prop :=
  ∀ g l, lookup g fm = some l → ∀ x ∈ l, x = .ok ()

theorem allFutOk_nil : allFutOk [] := by
  intro g l hl
  cases hl

theorem allFutOk_upd {fm : List (String × List (Except PyErr Unit))}
    (hfm : allFutOk fm) {fut : Except PyErr Unit} (hfut : fut = .ok ())
    (g : String) : allFutOk (updFutMap fm g fut) := by
  intro g' l hl x hx
  by_cases hg : g' = g
  · subst hg
    unfold updFutMap at hl
    rw [lookup_insertA_self] at hl
    simp only [Option.some.injEq] at hl
    subst hl
    rcases List.mem_append.mp hx with h1 | h1
    · rcases hgl : lookup g' fm with _ | l₀
      · rw [hgl] at h1
        simp at h1
      · rw [hgl] at h1
        simp only [Option.getD_some] at h1
        exact hfm g' l₀ hgl x h1
    · simp only [List.mem_singleton] at h1
      subst h1
      exact hfut
  · unfold updFutMap at hl
    rw [lookup_insertA_ne hg] at hl
    exact hfm g' l hl x hx

theorem scheduleOne_allFutOk (env : Env) (fs : List String) (h : BlastHandler)
    (file : String) (db : BlastDatabase) (d : String)
    (henv : ∀ q f o, env.blastStderr q f o = "")
    (hfm : allFutOk h.future_blasts_map) :
    allFutOk (scheduleOne env fs h file db d).1.future_blasts_map := by
  unfold scheduleOne
  dsimp only
  by_cases hc : fs.contains
      (blast_out_path h.output_directory (basename file) d db.name) = true
  · rw [if_pos hc]
    exact hfm
  · rw [if_neg hc]
    exact allFutOk_upd hfm (by simp [launch_result, henv]) db.name

theorem scheduleList_allFutOk (env : Env) (fs : List String) (file : String)
    (db : BlastDatabase) (henv : ∀ q f o, env.blastStderr q f o = "") :
    ∀ (ds : List String) (h : BlastHandler),
      allFutOk h.future_blasts_map →
      allFutOk (scheduleList env fs h file db ds).1.future_blasts_map := by
  intro ds
  induction ds with
  | nil => intro h hfm; exact hfm
  | cons d rest ih =>
    intro h hfm
    rw [scheduleList_cons]
    rcases hs : scheduleOne env fs h file db d with ⟨h₁, r⟩
    have hfm₁ : allFutOk h₁.future_blasts_map := by
      have h0 := scheduleOne_allFutOk env fs h file db d henv hfm
      rw [hs] at h0
      exact h0
    rcases r with e | u
    · exact hfm₁
    · exact ih h₁ hfm₁

theorem scheduleGroups_allFutOk (env : Env) (fs : List String) (file : String)
    (henv : ∀ q f o, env.blastStderr q f o = "") :
    ∀ (groups : List (String × Option BlastDatabase)) (h : BlastHandler),
      allFutOk h.future_blasts_map →
      allFutOk (scheduleGroups env fs h file groups).1.future_blasts_map := by
  intro groups
  induction groups with
  | nil => intro h hfm; exact hfm
  | cons p rest ih =>
    intro h hfm
    obtain ⟨g, v⟩ := p
    rcases v with _ | db
    · exact hfm
    · rw [scheduleGroups_cons_some]
      rcases hs : schedule_blast env fs h file db with ⟨h₁, r⟩
      have hfm₁ : allFutOk h₁.future_blasts_map := by
        have h0 := scheduleList_allFutOk env fs file db henv db.databaseNames h hfm
        rw [show scheduleList env fs h file db db.databaseNames =
          schedule_blast env fs h file db from rfl, hs] at h0
        exact h0
      rcases r with e | u
      · exact hfm₁
      · exact ih h₁ hfm₁

theorem scheduleFiles_allFutOk (env : Env) (fs : List String)
    (henv : ∀ q f o, env.blastStderr q f o = "") :
    ∀ (dfiles : List String) (h : BlastHandler),
      allFutOk h.future_blasts_map →
      allFutOk (scheduleFiles env fs h dfiles).1.future_blasts_map := by
  intro dfiles
  induction dfiles with
  | nil => intro h hfm; exact hfm
  | cons f₀ rest ih =>
    intro h hfm
    rw [scheduleFiles_cons]
    rcases hs : scheduleGroups env fs h f₀ h.blast_database_objects_map with ⟨h₁, r⟩
    have hfm₁ : allFutOk h₁.future_blasts_map := by
      have h0 := scheduleGroups_allFutOk env fs f₀ henv
        h.blast_database_objects_map h hfm
      rw [hs] at h0
      exact h0
    rcases r with e | u
    · exact hfm₁
    · exact ih h₁ hfm₁

end BlastHandler

/-! ### Claim C1: effect of a successful scheduling pass on the target group -/

namespace AList0

theorem lookup_some_mem {m : List (String × α)} {k : String} {v : α}
    (h : lookup k m = some v) : (k, v) ∈ m := by
  induction m with
  | nil => cases h
  | cons p rest ih =>
    obtain ⟨k', v'⟩ := p
    by_cases hk : k' = k
    · subst hk
      have hv : v' = v := by simpa [lookup] using h
      subst hv
      simp
    · simp only [lookup, hk, if_false] at h
      simp [ih h]

theorem lookup_some_split {m : List (String × α)} {k : String} {v : α}
    (h : lookup k m = some v) :
    ∃ pre post, m = pre ++ (k, v) :: post ∧ k ∉ keys pre := by
  induction m with
  | nil => cases h
  | cons p rest ih =>
    obtain ⟨k', v'⟩ := p
    by_cases hk : k' = k
    · subst hk
      have hv : v' = v := by simpa [lookup] using h
      subst hv
      exact ⟨[], rest, rfl, by simp [keys]⟩
    · simp only [lookup, hk, if_false] at h
      obtain ⟨pre, post, heq, hmem⟩ := ih h
      refine ⟨(k', v') :: pre, post, by rw [heq, List.cons_append], ?_⟩
      simp only [keys, List.map_cons, List.mem_cons]
      rintro (h1 | h1)
      · exact hk h1.symm
      · exact hmem h1

end AList0

namespace BlastHandler

theorem scheduleList_target (env : Env) (fs : List String) (file : String)
    (db : BlastDatabase) :
    ∀ (ds : List String) (h h' : BlastHandler),
      scheduleList env fs h file db ds = (h', .ok ()) →
      ∀ d', (lookup d' ((lookup (basename file)
          ((lookup db.name h'.blast_map).getD [])).getD [])).isSome ↔
        (d' ∈ ds ∨ (lookup d' ((lookup (basename file)
          ((lookup db.name h.blast_map).getD [])).getD [])).isSome) := by
  intro ds
  induction ds with
  | nil =>
    intro h h' hs d'
    simp only [scheduleList, Prod.mk.injEq] at hs
    rw [← hs.1]
    simp
  | cons d rest ih =>
    intro h h' hs d'
    rw [scheduleList_cons] at hs
    rcases hone : scheduleOne env fs h file db d with ⟨h₁, r⟩
    rw [hone] at hs
    rcases r with e | u
    · simp at hs
    · by_cases hc : fs.contains
          (blast_out_path h.output_directory (basename file) d db.name) = true
      · rw [scheduleOne_contains_eq env fs h file db d hc] at hone
        simp at hone
      · have hcf : fs.contains
            (blast_out_path h.output_directory (basename file) d db.name) = false := by
          rcases hb : fs.contains
              (blast_out_path h.output_directory (basename file) d db.name) with _ | _
          · rfl
          · exact absurd hb hc
        rw [scheduleOne_not_contains_eq env fs h file db d hcf] at hone
        simp only [Prod.mk.injEq] at hone
        rw [← hone.1] at hs
        have hrec := ih _ h' hs d'
        by_cases hdd : d' = d
        · subst hdd
          constructor
          · intro _; simp
          · intro _
            rw [hrec]
            right
            have := updBlastMap_chain_eq h.blast_map db.name (basename file) d'
              (blast_out_path h.output_directory (basename file) d' db.name)
            rw [this]
            rfl
        · rw [hrec, updBlastMap_chain_ne h.blast_map db.name (basename file) d d'
            (blast_out_path h.output_directory (basename file) d db.name) hdd]
          simp [List.mem_cons, hdd]

theorem scheduleGroups_append (env : Env) (fs : List String) (file : String) :
    ∀ (l₁ l₂ : List (String × Option BlastDatabase)) (h : BlastHandler),
      scheduleGroups env fs h file (l₁ ++ l₂) =
        match scheduleGroups env fs h file l₁ with
        | (h₁, .ok _) => scheduleGroups env fs h₁ file l₂
        | (h₁, .error e) => (h₁, .error e) := by
  intro l₁
  induction l₁ with
  | nil => intro l₂ h; rfl
  | cons p rest ih =>
    intro l₂ h
    obtain ⟨g, v⟩ := p
    rcases v with _ | db
    · rfl
    · rw [List.cons_append, scheduleGroups_cons_some, scheduleGroups_cons_some]
      rcases hs : schedule_blast env fs h file db with ⟨h₁, r⟩
      rcases r with e | u
      · rfl
      · dsimp only
        exact ih l₂ h₁

theorem scheduleGroups_target (env : Env) (fs : List String) (file : String)
    (g₀ : String) (db₀ : BlastDatabase) (hname : db₀.name = g₀) :
    ∀ (pre post : List (String × Option BlastDatabase)) (h h' : BlastHandler),
      scheduleGroups env fs h file (pre ++ (g₀, some db₀) :: post) = (h', .ok ()) →
      (∀ p ∈ pre, ∀ dbp : BlastDatabase, p.2 = some dbp → dbp.name ≠ g₀) →
      (∀ p ∈ post, ∀ dbp : BlastDatabase, p.2 = some dbp → dbp.name ≠ g₀) →
      ∀ d', (lookup d' ((lookup (basename file)
          ((lookup g₀ h'.blast_map).getD [])).getD [])).isSome ↔
        (d' ∈ db₀.databaseNames ∨ (lookup d' ((lookup (basename file)
          ((lookup g₀ h.blast_map).getD [])).getD [])).isSome) := by
  intro pre post h h' hs hpre hpost d'
  rw [scheduleGroups_append] at hs
  rcases h1 : scheduleGroups env fs h file pre with ⟨hp, r₁⟩
  rw [h1] at hs
  rcases r₁ with e | u
  · simp at hs
  · dsimp only at hs
    rw [scheduleGroups_cons_some] at hs
    rcases h2 : schedule_blast env fs hp file db₀ with ⟨hq, r₂⟩
    rw [h2] at hs
    rcases r₂ with e | u'
    · simp at hs
    · dsimp only at hs
      have hfr1 : lookup g₀ hp.blast_map = lookup g₀ h.blast_map := by
        have h0 := scheduleGroups_frame_group env fs file g₀ pre h hpre
        rw [h1] at h0
        exact h0
      have hfr2 : lookup g₀ h'.blast_map = lookup g₀ hq.blast_map := by
        have h0 := scheduleGroups_frame_group env fs file g₀ post hq hpost
        rw [hs] at h0
        exact h0
      have hseq : scheduleList env fs hp file db₀ db₀.databaseNames = (hq, .ok ()) := by
        rw [show scheduleList env fs hp file db₀ db₀.databaseNames =
          schedule_blast env fs hp file db₀ from rfl, h2]
      have htar := scheduleList_target env fs file db₀ db₀.databaseNames hp hq hseq d'
      rw [hname] at htar
      rw [hfr1] at htar
      rw [hfr2]
      exact htar

end BlastHandler

/-! ### Claim C1: the whole-run effect on a configured group -/

namespace BlastHandler

theorem scheduleFiles_target (env : Env) (fs : List String) (g₀ : String)
    (db₀ : BlastDatabase) (hname : db₀.name = g₀)
    (hne : db₀.databaseNames ≠ []) :
    ∀ (dfiles : List String) (h h' : BlastHandler),
      scheduleFiles env fs h dfiles = (h', .ok ()) →
      (∀ p ∈ h.blast_database_objects_map, ∃ dbp, p.2 = some dbp ∧ dbp.name = p.1) →
      (keys h.blast_database_objects_map).Nodup →
      lookup g₀ h.blast_database_objects_map = some (some db₀) →
      (dfiles.map basename).Nodup →
      (∀ f ∈ dfiles, lookup (basename f) ((lookup g₀ h.blast_map).getD []) = none) →
      (∀ k, (lookup k ((lookup g₀ h'.blast_map).getD [])).isSome ↔
        (k ∈ dfiles.map basename ∨
          (lookup k ((lookup g₀ h.blast_map).getD [])).isSome)) ∧
      (∀ f ∈ dfiles, ∃ fm,
        lookup (basename f) ((lookup g₀ h'.blast_map).getD []) = some fm ∧
        ∀ d, (lookup d fm).isSome ↔ d ∈ db₀.databaseNames) := by
  intro dfiles
  induction dfiles with
  | nil =>
    intro h h' hs hvc hnd hmem hbn hfresh
    simp only [scheduleFiles, Prod.mk.injEq] at hs
    rw [← hs.1]
    constructor
    · intro k; simp
    · intro f hf; cases hf
  | cons f₀ rest ih =>
    intro h h' hs hvc hnd hmem hbn hfresh
    rw [scheduleFiles_cons] at hs
    rcases hg : scheduleGroups env fs h f₀ h.blast_database_objects_map with ⟨hA, r⟩
    rw [hg] at hs
    rcases r with e | u
    · simp at hs
    · dsimp only at hs
      -- decompose the group map around the target entry
      obtain ⟨pre, post, hsplit, hkpre⟩ := lookup_some_split hmem
      have hkeys : keys h.blast_database_objects_map =
          keys pre ++ g₀ :: keys post := by
        rw [hsplit]
        simp [keys]
      have hkpost : g₀ ∉ keys post := by
        rw [hkeys] at hnd
        have := List.Nodup.of_append_right hnd
        exact (List.nodup_cons.mp this).1
      have hprename : ∀ p ∈ pre, ∀ dbp : BlastDatabase,
          p.2 = some dbp → dbp.name ≠ g₀ := by
        intro p hp dbp hdp
        have hpmem : p ∈ h.blast_database_objects_map := by
          rw [hsplit]; exact List.mem_append_left _ hp
        obtain ⟨dbq, hdq, hnq⟩ := hvc p hpmem
        rw [hdp] at hdq
        simp only [Option.some.injEq] at hdq
        subst hdq
        rw [hnq]
        intro hcontra
        exact hkpre (hcontra ▸ (List.mem_map.mpr ⟨p, hp, rfl⟩))
      have hpostname : ∀ p ∈ post, ∀ dbp : BlastDatabase,
          p.2 = some dbp → dbp.name ≠ g₀ := by
        intro p hp dbp hdp
        have hpmem : p ∈ h.blast_database_objects_map := by
          rw [hsplit]
          exact List.mem_append_right _ (List.mem_cons_of_mem _ hp)
        obtain ⟨dbq, hdq, hnq⟩ := hvc p hpmem
        rw [hdp] at hdq
        simp only [Option.some.injEq] at hdq
        subst hdq
        rw [hnq]
        intro hcontra
        exact hkpost (hcontra ▸ (List.mem_map.mpr ⟨p, hp, rfl⟩))
      have hgsplit : scheduleGroups env fs h f₀ (pre ++ (g₀, some db₀) :: post) =
          (hA, .ok ()) := by
        rw [← hsplit]
        exact hg
      have htarA := scheduleGroups_target env fs f₀ g₀ db₀ hname pre post h hA
        hgsplit hprename hpostname
      -- the old chain at basename f₀ is empty
      have hfresh₀ : lookup (basename f₀) ((lookup g₀ h.blast_map).getD []) = none :=
        hfresh f₀ (by simp)
      have htarA' : ∀ d', (lookup d' ((lookup (basename f₀)
          ((lookup g₀ hA.blast_map).getD [])).getD [])).isSome ↔
          d' ∈ db₀.databaseNames := by
        intro d'
        rw [htarA d', hfresh₀]
        simp [lookup]
      -- the file entry for f₀ exists in hA
      obtain ⟨d₀, hd₀⟩ := List.exists_mem_of_ne_nil _ hne
      have hfA : (lookup (basename f₀) ((lookup g₀ hA.blast_map).getD [])).isSome := by
        apply fileEntry_isSome_of_inner
        exact (htarA' d₀).mpr hd₀
      -- configuration is preserved into hA
      have hAcfg : hA.blast_database_objects_map = h.blast_database_objects_map := by
        have h0 := (scheduleGroups_sameConfig env fs f₀
          h.blast_database_objects_map h).2.2.2.1
        rw [hg] at h0
        exact h0
      -- frames of hA for other files
      have hAframe : ∀ (k : String), k ≠ basename f₀ → ∀ g',
          lookup k ((lookup g' hA.blast_map).getD []) =
            lookup k ((lookup g' h.blast_map).getD []) := by
        intro k hk g'
        have h0 := scheduleGroups_frame_file env fs f₀
          h.blast_database_objects_map h hk g'
        rw [hg] at h0
        exact h0
      -- apply the induction hypothesis to the rest
      have hbn' : (rest.map basename).Nodup := (List.nodup_cons.mp (by
        simpa using hbn)).2
      have hb₀ : basename f₀ ∉ rest.map basename := (List.nodup_cons.mp (by
        simpa using hbn)).1
      have hrest := ih hA h' hs
        (by rw [hAcfg]; exact hvc)
        (by rw [hAcfg]; exact hnd)
        (by rw [hAcfg]; exact hmem)
        hbn'
        (by
          intro f hf
          have hbne : basename f ≠ basename f₀ := by
            intro hbe
            have hfm2 : basename f ∈ rest.map basename :=
              List.mem_map.mpr ⟨f, hf, rfl⟩
            rw [hbe] at hfm2
            exact hb₀ hfm2
          rw [hAframe (basename f) hbne g₀]
          exact hfresh f (by simp [hf]))
      -- the f₀ entry survives the rest of the run
      have hkeep : lookup (basename f₀) ((lookup g₀ h'.blast_map).getD []) =
          lookup (basename f₀) ((lookup g₀ hA.blast_map).getD []) := by
        have h0 := scheduleFiles_frame_file env fs rest hA
          (fun f hf => by
            intro hbe
            have hfm2 : basename f ∈ rest.map basename :=
              List.mem_map.mpr ⟨f, hf, rfl⟩
            rw [hbe] at hfm2
            exact hb₀ hfm2) g₀
        rw [hs] at h0
        exact h0
      constructor
      · intro k
        by_cases hk : k = basename f₀
        · subst hk
          constructor
          · intro _
            left
            simp
          · intro _
            rw [hkeep]
            exact hfA
        · rw [hrest.1 k, hAframe k hk g₀]
          simp only [List.map_cons, List.mem_cons]
          constructor
          · rintro (h1 | h1)
            · exact Or.inl (Or.inr h1)
            · exact Or.inr h1
          · rintro (h1 | h1)
            · rcases h1 with h2 | h2
              · exact absurd h2 hk
              · exact Or.inl h2
            · exact Or.inr h1
      · intro f hf
        rcases List.mem_cons.mp hf with h1 | h1
        · subst h1
          obtain ⟨fm, hfm⟩ := Option.isSome_iff_exists.mp hfA
          refine ⟨fm, ?_, ?_⟩
          · rw [hkeep, hfm]
          · intro d
            have := htarA' d
            rw [hfm] at this
            simpa using this
        · exact hrest.2 f h1

end BlastHandler

/-! ### Claim C1: run inversion and draining a fully successful group -/

namespace BlastHandler

theorem run_blasts_ok_inv {env : Env} {h : BlastHandler} {fs files : List String}
    {h₁ : BlastHandler} {fs₁ : List String}
    (hr : run_blasts env h fs files = (h₁, fs₁, .ok ())) :
    ∃ db_files,
      symlinkLoop h.input_genomes_tmp_dir fs [] files = (fs₁, .ok db_files) ∧
      firstMkdbErr env db_files = none ∧
      scheduleFiles env fs₁ h db_files = (h₁, .ok ()) := by
  unfold run_blasts make_db_from_input_files at hr
  rcases hsym : symlinkLoop h.input_genomes_tmp_dir fs [] files with ⟨fs', r₁⟩
  rw [hsym] at hr
  rcases r₁ with e | db_files
  · simp at hr
  · dsimp only at hr
    rcases hmk : firstMkdbErr env db_files with _ | e
    · rw [hmk] at hr
      dsimp only at hr
      rcases hsf : scheduleFiles env fs' h db_files with ⟨h₁', r₂⟩
      rw [hsf] at hr
      simp only [Prod.mk.injEq] at hr
      obtain ⟨hh, hf, hrr⟩ := hr
      refine ⟨db_files, ?_, hmk, ?_⟩
      · rw [← hf]
      · rw [← hf, ← hh, ← hrr]
        exact hsf
    · rw [hmk] at hr
      simp at hr

theorem get_resfinder_ok_of_allFutOk {h : BlastHandler}
    (hfm : allFutOk h.future_blasts_map) :
    ∃ h₂, get_resfinder_outputs h =
      (h₂, .ok ((lookup "resfinder" h.blast_map).getD [])) := by
  unfold get_resfinder_outputs
  dsimp only
  have hdr : drain ((lookup "resfinder" h.future_blasts_map).getD []) = .ok () := by
    rcases hl : lookup "resfinder" h.future_blasts_map with _ | l
    · rfl
    · simp only [Option.getD_some]
      exact drain_all_ok l (hfm "resfinder" l hl)
  rw [hdr]
  exact ⟨_, rfl⟩

theorem get_pointfinder_ok_of_allFutOk {h : BlastHandler}
    (hflag : h.pointfinder_configured = true)
    (hfm : allFutOk h.future_blasts_map) :
    ∃ h₂, get_pointfinder_outputs h =
      (h₂, .ok ((lookup "pointfinder" h.blast_map).getD [])) := by
  unfold get_pointfinder_outputs is_pointfinder_configured
  rw [hflag]
  dsimp only
  have hdr : drain ((lookup "pointfinder" h.future_blasts_map).getD []) = .ok () := by
    rcases hl : lookup "pointfinder" h.future_blasts_map with _ | l
    · rfl
    · simp only [Option.getD_some]
      exact drain_all_ok l (hfm "pointfinder" l hl)
  rw [hdr]
  exact ⟨_, rfl⟩

end BlastHandler

/-! ### Claim C1: dictionary facts about the erased map -/

namespace AList0

theorem eraseA_sublist (k : String) :
    ∀ m : List (String × α), List.Sublist (eraseA k m) m := by
  intro m
  induction m with
  | nil => simp [eraseA]
  | cons p rest ih =>
    obtain ⟨k', v'⟩ := p
    by_cases hk : k' = k
    · simp only [eraseA, if_pos hk]
      exact List.sublist_cons_self (k', v') rest
    · simp only [eraseA, hk, if_false]
      exact ih.cons₂ (k', v')

theorem keys_eraseA_nodup {m : List (String × α)} (hnd : (keys m).Nodup)
    (k : String) : (keys (eraseA k m)).Nodup :=
  hnd.sublist ((eraseA_sublist k m).map Prod.fst)

theorem mem_of_mem_eraseA {m : List (String × α)} {k : String} {p : String × α}
    (h : p ∈ eraseA k m) : p ∈ m :=
  (eraseA_sublist k m).mem h

/-- In a map with unique keys, every entry is what lookup of its key finds. -/
theorem lookup_eq_of_mem_nodup {m : List (String × α)}
    (hnd : (keys m).Nodup) {p : String × α} (hp : p ∈ m) :
    lookup p.1 m = some p.2 := by
  induction m with
  | nil => cases hp
  | cons q rest ih =>
    obtain ⟨k', v'⟩ := q
    simp only [keys, List.map_cons, List.nodup_cons] at hnd
    rcases List.mem_cons.mp hp with h1 | h1
    · subst h1
      simp [lookup]
    · have hk : k' ≠ p.1 := by
        intro hkk
        exact hnd.1 (hkk ▸ List.mem_map.mpr ⟨p, h1, rfl⟩)
      simp only [lookup, hk, if_false]
      exact ih hnd.2 h1

end AList0

namespace BlastHandler

/-- All futures of a completed successful run succeeded. -/
theorem run_blasts_allFutOk {env : Env} {h₀ : BlastHandler}
    {fs₀ files : List String} {h₁ : BlastHandler} {fs₁ : List String}
    (henv : ∀ q f o, env.blastStderr q f o = "")
    (hfut : h₀.future_blasts_map = [])
    (hrun : run_blasts env h₀ fs₀ files = (h₁, fs₁, .ok ())) :
    allFutOk h₁.future_blasts_map := by
  obtain ⟨db_files, hsym, hmk, hsched⟩ := run_blasts_ok_inv hrun
  have h0 := scheduleFiles_allFutOk env fs₁ henv db_files h₀
    (by rw [hfut]; exact allFutOk_nil)
  rw [hsched] at h0
  exact h0

/-- The shape of a configured group's result map after a successful run from
a freshly constructed handler, stated against the handler's own working map
(which in the null-pointfinder case is the caller's map with the key
erased). -/
theorem run_then_get_core (env : Env) (h₀ : BlastHandler)
    (fs₀ files : List String) (h₁ : BlastHandler) (fs₁ : List String)
    (hbm : h₀.blast_map = [])
    (hvc₀ : ∀ p ∈ h₀.blast_database_objects_map,
      ∃ dbp, p.2 = some dbp ∧ dbp.name = p.1)
    (hnd₀ : (keys h₀.blast_database_objects_map).Nodup)
    (hrun : run_blasts env h₀ fs₀ files = (h₁, fs₁, .ok ()))
    (g₀ : String) (db : BlastDatabase)
    (hdb : lookup g₀ h₀.blast_database_objects_map = some (some db))
    (hne : db.databaseNames ≠ []) :
    (∀ k, (lookup k ((lookup g₀ h₁.blast_map).getD [])).isSome ↔
      k ∈ files.map basename) ∧
    (∀ f ∈ files, ∃ fm,
      lookup (basename f) ((lookup g₀ h₁.blast_map).getD []) = some fm ∧
      ∀ d, (lookup d fm).isSome ↔ d ∈ db.databaseNames) := by
  obtain ⟨db_files, hsym, hmk, hsched⟩ := run_blasts_ok_inv hrun
  have hdbf : db_files =
      files.map (fun f => os_join h₀.input_genomes_tmp_dir (basename f)) := by
    simpa using symlinkLoop_ok_dbfiles h₀.input_genomes_tmp_dir files fs₀ [] hsym
  have hbnd : (files.map basename).Nodup :=
    symlinkLoop_ok_basenames_nodup h₀.input_genomes_tmp_dir files fs₀ [] hsym
  have hdbfbn : db_files.map basename = files.map basename := by
    rw [hdbf]
    exact dbfiles_basenames h₀.input_genomes_tmp_dir files
  obtain ⟨dbp, hdbp, hdbpname⟩ := hvc₀ (g₀, some db) (lookup_some_mem hdb)
  simp only [Option.some.injEq] at hdbp
  subst hdbp
  have htarget := scheduleFiles_target env fs₁ g₀ db hdbpname hne db_files
    h₀ h₁ hsched hvc₀ hnd₀ hdb
    (by rw [hdbfbn]; exact hbnd)
    (by intro f hf; rw [hbm]; rfl)
  obtain ⟨hkeys, hfiles⟩ := htarget
  constructor
  · intro k
    have h1 := hkeys k
    have h2 : lookup k ((lookup g₀ h₀.blast_map).getD []) =
        (none : Option (List (String × String))) := by
      rw [hbm]
      rfl
    rw [h2] at h1
    simp only [Option.isSome_none, Bool.false_eq_true, or_false] at h1
    rw [hdbfbn] at h1
    exact h1
  · intro f hf
    have hdest : os_join h₀.input_genomes_tmp_dir (basename f) ∈ db_files := by
      rw [hdbf]
      exact List.mem_map_of_mem _ hf
    obtain ⟨fm, hfm1, hfm2⟩ := hfiles _ hdest
    rw [basename_dest] at hfm1
    exact ⟨fm, hfm1, hfm2⟩

end BlastHandler

/-! ### Claim C1 -/

/-- **C1 (amended)**: for a valid configuration — every entry of the caller's
map either holds a non-null group object reporting its key as its name, or is
the optional `pointfinder` entry set to null — in which every configured
group has at least one sub-database name, after a successful `run_blasts`
(all symlinks fresh, all external processes succeed) each configured group's
`get_results` returns a map whose key set is exactly the input basenames and
whose inner key set, for every input, is exactly that group's sub-database
names. (A group with an empty sub-database list registers nothing — see the
counterexample — hence the nonemptiness proviso.) -/
theorem claim_C1_run_then_get_results (env : Env)
    (dbMap : List (String × Option BlastDatabase)) (t : Nat) (od : String)
    (fs files : List String) (h₀ : BlastHandler) (fs₀ : List String)
    (h₁ : BlastHandler) (fs₁ : List String)
    (henv : ∀ q f o, env.blastStderr q f o = "")
    (hvc : ∀ p ∈ dbMap, (∃ dbp, p.2 = some dbp ∧ dbp.name = p.1) ∨
      (p.1 = "pointfinder" ∧ p.2 = none))
    (hnd : (keys dbMap).Nodup)
    (hinit : init dbMap (some t) (some od) fs = .ok (h₀, fs₀))
    (hrun : run_blasts env h₀ fs₀ files = (h₁, fs₁, .ok ())) :
    (∀ db : BlastDatabase, lookup "resfinder" dbMap = some (some db) →
      db.databaseNames ≠ [] →
      ∃ h₂ m, get_resfinder_outputs h₁ = (h₂, .ok m) ∧
        (∀ k, (lookup k m).isSome ↔ k ∈ files.map basename) ∧
        (∀ f ∈ files, ∃ fm, lookup (basename f) m = some fm ∧
          ∀ d, (lookup d fm).isSome ↔ d ∈ db.databaseNames)) ∧
    (∀ db : BlastDatabase, lookup "pointfinder" dbMap = some (some db) →
      db.databaseNames ≠ [] →
      ∃ h₂ m, get_pointfinder_outputs h₁ = (h₂, .ok m) ∧
        (∀ k, (lookup k m).isSome ↔ k ∈ files.map basename) ∧
        (∀ f ∈ files, ∃ fm, lookup (basename f) m = some fm ∧
          ∀ d, (lookup d fm).isSome ↔ d ∈ db.databaseNames)) := by
  rcases hpf : lookup "pointfinder" dbMap with _ | v
  · rw [init_missing_pf_eq hpf] at hinit
    cases hinit
  rcases v with _ | pdb
  · -- the optional group was supplied as null: it is erased from the
    -- working map, which then satisfies the all-non-null condition
    rw [init_null_pf_eq t od fs hpf] at hinit
    simp only [Except.ok.injEq] at hinit
    have hfst := congrArg Prod.fst hinit
    rw [reset_fst] at hfst
    have hbm : h₀.blast_map = [] :=
      (congrArg BlastHandler.blast_map hfst).symm
    have hfut : h₀.future_blasts_map = [] :=
      (congrArg BlastHandler.future_blasts_map hfst).symm
    have hmap : h₀.blast_database_objects_map = eraseA "pointfinder" dbMap :=
      (congrArg BlastHandler.blast_database_objects_map hfst).symm
    have hnd₀ : (keys h₀.blast_database_objects_map).Nodup := by
      rw [hmap]
      exact keys_eraseA_nodup hnd "pointfinder"
    have hvc₀ : ∀ p ∈ h₀.blast_database_objects_map,
        ∃ dbp, p.2 = some dbp ∧ dbp.name = p.1 := by
      intro p hp
      rw [hmap] at hp
      rcases hvc p (mem_of_mem_eraseA hp) with h1 | h1
      · exact h1
      · exfalso
        have hkm : p.1 ∈ keys (eraseA "pointfinder" dbMap) :=
          List.mem_map.mpr ⟨p, hp, rfl⟩
        rw [h1.1] at hkm
        have hiso := (isSome_lookup_iff_mem_keys "pointfinder"
          (eraseA "pointfinder" dbMap)).mpr hkm
        rw [lookup_eraseA_self hnd] at hiso
        cases hiso
    constructor
    · intro db hdb hne
      have hdb₀ : lookup "resfinder" h₀.blast_database_objects_map =
          some (some db) := by
        rw [hmap, lookup_eraseA_ne (by decide)]
        exact hdb
      obtain ⟨hk, hfm⟩ := run_then_get_core env h₀ fs₀ files h₁ fs₁
        hbm hvc₀ hnd₀ hrun "resfinder" db hdb₀ hne
      obtain ⟨h₂, hget⟩ :=
        get_resfinder_ok_of_allFutOk (run_blasts_allFutOk henv hfut hrun)
      exact ⟨h₂, (lookup "resfinder" h₁.blast_map).getD [], hget, hk, hfm⟩
    · intro db hdb hne
      exact absurd hdb (by simp)
  · -- the optional group is configured: every entry is non-null
    have hvc₀ : ∀ p ∈ dbMap, ∃ dbp, p.2 = some dbp ∧ dbp.name = p.1 := by
      intro p hp
      rcases hvc p hp with h1 | h1
      · exact h1
      · exfalso
        have hl := lookup_eq_of_mem_nodup hnd hp
        rw [h1.1, h1.2] at hl
        rw [hpf] at hl
        simp at hl
    rw [init_some_pf_eq t od fs hpf] at hinit
    simp only [Except.ok.injEq] at hinit
    have hfst := congrArg Prod.fst hinit
    rw [reset_fst] at hfst
    have hbm : h₀.blast_map = [] :=
      (congrArg BlastHandler.blast_map hfst).symm
    have hfut : h₀.future_blasts_map = [] :=
      (congrArg BlastHandler.future_blasts_map hfst).symm
    have hmap : h₀.blast_database_objects_map = dbMap :=
      (congrArg BlastHandler.blast_database_objects_map hfst).symm
    have hflag₀ : h₀.pointfinder_configured = true :=
      (congrArg BlastHandler.pointfinder_configured hfst).symm
    have hnd₀ : (keys h₀.blast_database_objects_map).Nodup := by
      rw [hmap]
      exact hnd
    have hvc₀' : ∀ p ∈ h₀.blast_database_objects_map,
        ∃ dbp, p.2 = some dbp ∧ dbp.name = p.1 := by
      rw [hmap]
      exact hvc₀
    constructor
    · intro db hdb hne
      have hdb₀ : lookup "resfinder" h₀.blast_database_objects_map =
          some (some db) := by
        rw [hmap]
        exact hdb
      obtain ⟨hk, hfm⟩ := run_then_get_core env h₀ fs₀ files h₁ fs₁
        hbm hvc₀' hnd₀ hrun "resfinder" db hdb₀ hne
      obtain ⟨h₂, hget⟩ :=
        get_resfinder_ok_of_allFutOk (run_blasts_allFutOk henv hfut hrun)
      exact ⟨h₂, (lookup "resfinder" h₁.blast_map).getD [], hget, hk, hfm⟩
    · intro db hdb hne
      have hdb' : pdb = db := by simpa using hdb
      subst hdb'
      have hdb₀ : lookup "pointfinder" h₀.blast_database_objects_map =
          some (some pdb) := by
        rw [hmap]
        exact hpf
      obtain ⟨hk, hfm⟩ := run_then_get_core env h₀ fs₀ files h₁ fs₁
        hbm hvc₀' hnd₀ hrun "pointfinder" pdb hdb₀ hne
      have hflag₁ : h₁.pointfinder_configured = true := by
        have h0 := (run_blasts_sameConfig env h₀ fs₀ files).2.2.2.2
        rw [hrun] at h0
        rw [h0]
        exact hflag₀
      obtain ⟨h₂, hget⟩ := get_pointfinder_ok_of_allFutOk hflag₁
        (run_blasts_allFutOk henv hfut hrun)
      exact ⟨h₂, (lookup "pointfinder" h₁.blast_map).getD [], hget, hk, hfm⟩

/-- Witness for C1 (amended): a run with both groups configured (both
getters), and a run over a map whose pointfinder entry is null (resfinder
getter) — the hypotheses are satisfiable in both valid configurations. -/
theorem claim_C1_witness :
    (∃ h₀ fs₀ h₁ fs₁,
      init sampleDbMap (some 2) (some "out") [] = .ok (h₀, fs₀) ∧
      run_blasts sampleEnvOk h₀ fs₀ ["f1.fa", "in/f2.fa"] = (h₁, fs₁, .ok ()) ∧
      ((∀ db : BlastDatabase, lookup "resfinder" sampleDbMap = some (some db) →
        db.databaseNames ≠ [] →
        ∃ h₂ m, get_resfinder_outputs h₁ = (h₂, .ok m) ∧
          (∀ k, (lookup k m).isSome ↔
            k ∈ (["f1.fa", "in/f2.fa"] : List String).map basename) ∧
          (∀ f ∈ (["f1.fa", "in/f2.fa"] : List String), ∃ fm,
            lookup (basename f) m = some fm ∧
            ∀ d, (lookup d fm).isSome ↔ d ∈ db.databaseNames)) ∧
       (∀ db : BlastDatabase, lookup "pointfinder" sampleDbMap = some (some db) →
        db.databaseNames ≠ [] →
        ∃ h₂ m, get_pointfinder_outputs h₁ = (h₂, .ok m) ∧
          (∀ k, (lookup k m).isSome ↔
            k ∈ (["f1.fa", "in/f2.fa"] : List String).map basename) ∧
          (∀ f ∈ (["f1.fa", "in/f2.fa"] : List String), ∃ fm,
            lookup (basename f) m = some fm ∧
            ∀ d, (lookup d fm).isSome ↔ d ∈ db.databaseNames)))) ∧
    (∃ h₀ fs₀ h₁ fs₁,
      init sampleDbMapNullPf (some 2) (some "out") [] = .ok (h₀, fs₀) ∧
      run_blasts sampleEnvOk h₀ fs₀ ["f1.fa"] = (h₁, fs₁, .ok ()) ∧
      (∀ db : BlastDatabase, lookup "resfinder" sampleDbMapNullPf = some (some db) →
        db.databaseNames ≠ [] →
        ∃ h₂ m, get_resfinder_outputs h₁ = (h₂, .ok m) ∧
          (∀ k, (lookup k m).isSome ↔
            k ∈ (["f1.fa"] : List String).map basename) ∧
          (∀ f ∈ (["f1.fa"] : List String), ∃ fm,
            lookup (basename f) m = some fm ∧
            ∀ d, (lookup d fm).isSome ↔ d ∈ db.databaseNames))) := by
  constructor
  · refine ⟨_, _, _, _, rfl, rfl, ?_⟩
    exact claim_C1_run_then_get_results sampleEnvOk sampleDbMap 2 "out" []
      ["f1.fa", "in/f2.fa"] _ _ _ _
      (fun q f o => rfl)
      (by
        intro p hp
        simp only [sampleDbMap, List.mem_cons, List.not_mem_nil, or_false] at hp
        rcases hp with h1 | h1
        · subst h1
          exact Or.inl ⟨sampleResfinderDb, rfl, rfl⟩
        · subst h1
          exact Or.inl ⟨samplePointfinderDb, rfl, rfl⟩)
      (by decide)
      rfl rfl
  · refine ⟨_, _, _, _, rfl, rfl, ?_⟩
    exact (claim_C1_run_then_get_results sampleEnvOk sampleDbMapNullPf 2 "out" []
      ["f1.fa"] _ _ _ _
      (fun q f o => rfl)
      (by
        intro p hp
        simp only [sampleDbMapNullPf, List.mem_cons, List.not_mem_nil, or_false] at hp
        rcases hp with h1 | h1
        · subst h1
          exact Or.inl ⟨sampleResfinderDb, rfl, rfl⟩
        · subst h1
          exact Or.inr ⟨rfl, rfl⟩)
      (by decide)
      rfl rfl).1
def sampleEmptyDb : BlastDatabase :=
  { name := "resfinder", databaseNames := [], getPath := fun d => d }

/-- **C1 counterexample**: with a validly configured group whose sub-database
list is empty, a successful `run_blasts` on one input leaves that group's
result map empty — its key set is not the set of input basenames, refuting
the claim as stated. -/
theorem claim_C1_counterexample :
    ∃ h₀ fs₀ h₁ fs₁ h₂,
      init [("resfinder", some sampleEmptyDb), ("pointfinder", some samplePointfinderDb)]
        (some 2) (some "out") [] = .ok (h₀, fs₀) ∧
      run_blasts sampleEnvOk h₀ fs₀ ["f1.fa"] = (h₁, fs₁, .ok ()) ∧
      get_resfinder_outputs h₁ = (h₂, .ok []) ∧
      "f1.fa" ∈ (["f1.fa"] : List String).map basename ∧
      (lookup "f1.fa" ([] : List (String × List (String × String)))).isSome = false := by
  refine ⟨_, _, _, _, _, rfl, rfl, rfl, ?_, rfl⟩
  decide
